import Mathlib

/-!
# Binary Star client (`src/Client_BS.c`)

A shallow embedding of `main` of `Client_BS.c`: the client half of the ZeroMQ
Binary Star pattern.  The client numbers its requests, sends one, polls for the
reply, and on a poll without input destroys its socket, switches to the other
server, sleeps, reconnects and sends the same request again.

## How the C program is modelled

* The environment is a list of events.  Each event is the outcome of one call of
  `zmq_poll` (line 37), together with the value the global `zctx_interrupted`
  has if the condition of the outer loop (line 26) is evaluated after that poll.
* Every call of the czmq / libc interface is recorded as an `Effect`; a run
  yields the final `State` of the local variables and the list of effects.
* Socket handles are numbered in order of creation: the n-th call of
  `zsocket_new` returns handle `n` (counting from 0).
* `int` is 32 bits wide.  Where ISO C leaves the behaviour undefined
  (`sprintf` writing past `request [10]`, `++sequence` past `INT_MAX`, `atoi`
  of a numeral that is not representable) the modelled run enters
  `Pc.undefined` and performs no further effect.
* `zstr_recv` is taken to return the reply as a C string, never `NULL`; the
  timeout passed to `zmq_poll` is recorded in msecs; `free (reply)` is not
  recorded.
* Time is not part of the state.  Statements about time are read off the trace:
  the msecs passed to `zclock_sleep`, the timeout of each `zmq_poll`, and the
  wait of each poll, which is at most its timeout (`waited`).
* `zctx_destroy` destroys the context with the sockets still open in it
  (`lifecycle`).
-/

namespace BinaryStar

/-! ## libc: `isspace`, `isdigit`, `atoi`, `sprintf ("%d")` -/

/-- Largest value of `int`. -/
def INT_MAX : Int := 2147483647

/-- Smallest value of `int`. -/
def INT_MIN : Int := -2147483648

/-- The function `isspace` in the "C" locale: space, `\t`, `\n`, `\v`, `\f`, `\r`. -/
def isspace (c : Char) : Bool :=
  c.toNat = 32 || (9 ≤ c.toNat && c.toNat ≤ 13)

/-- The function `isdigit`: `'0'` .. `'9'`. -/
def isdigit (c : Char) : Bool :=
  48 ≤ c.toNat && c.toNat ≤ 57

/-- Drop the leading white space, as `strtol` does first. -/
def skip_space : List Char → List Char
  | [] => []
  | c :: cs => if isspace c then skip_space cs else c :: cs

/-- Value of the longest run of decimal digits at the head of the input,
accumulated from `acc`; conversion stops at the first other character. -/
def digits_value : Nat → List Char → Nat
  | acc, [] => acc
  | acc, c :: cs => if isdigit c then digits_value (acc * 10 + (c.toNat - 48)) cs else acc

/-- The number `strtol (s, NULL, 10)` reads: white space, an optional sign, then
the longest run of digits; 0 when there is no digit to convert. -/
def strtol10 (s : List Char) : Int :=
  match skip_space s with
  | [] => 0
  | c :: cs =>
    if c = '-' then - (digits_value 0 cs : Int)
    else if c = '+' then (digits_value 0 cs : Int)
    else (digits_value 0 (c :: cs) : Int)

/-- The function `atoi`, that is `(int) strtol (s, NULL, 10)`.  `none` when the
number is not representable as `int`: ISO C leaves that case undefined. -/
def atoi (s : String) : Option Int :=
  let v := strtol10 s.data
  if INT_MIN ≤ v ∧ v ≤ INT_MAX then some v else none

/-- The characters `sprintf (buf, "%d", n)` writes before the terminator: a
minus sign for a negative number, then the decimal digits without leading
zeros. -/
def sprintf_d (n : Int) : String :=
  match n with
  | Int.ofNat m => String.mk (Nat.toDigits 10 m)
  | Int.negSucc m => String.mk ('-' :: Nat.toDigits 10 (m + 1))

/-! ## Constants of `Client_BS.c` -/

/-- Line 4: `REQUEST_TIMEOUT`, in msecs. -/
def REQUEST_TIMEOUT : Nat := 1000

/-- Line 5: `SETTLE_DELAY`, in msecs. -/
def SETTLE_DELAY : Nat := 2000

/-- Line 28: the size of `char request [10]`. -/
def REQUEST_SIZE : Nat := 10

/-- Line 15: `char *server [] = ...`, primary at index 0 and backup at index 1. -/
def server (i : Nat) : String :=
  match i with
  | 0 => "tcp://localhost:5001"
  | 1 => "tcp://localhost:5002"
  | _ => ""

/-! ## Effects, poll outcomes, state -/

/-- One call of the czmq / libc interface made by `main`. -/
inductive Effect where
  | zctx_new
  | printf (text : String)
  | zsocket_new (sock : Nat)
  | zsocket_connect (sock : Nat) (endpoint : String)
  | zstr_send (sock : Nat) (payload : String)
  | zmq_poll (sock : Nat) (timeout_ms : Nat)
  | zstr_recv (sock : Nat) (reply : String)
  | zsocket_destroy (sock : Nat)
  | zclock_sleep (msecs : Nat)
  | sleep (seconds : Nat)
  | zctx_destroy
  deriving DecidableEq, Repr

/-- What one call `zmq_poll (items, 1, REQUEST_TIMEOUT * ZMQ_POLL_MSEC)` gives
back: `fail` is `rc == -1`; `reply r` is `ZMQ_POLLIN` set in `revents`, with
`r` the string `zstr_recv` then returns; `timeout` is any other return. -/
inductive Poll where
  | fail
  | reply (r : String)
  | timeout
  deriving DecidableEq, Repr

/-- One event of the environment: the outcome of a poll, and the value of
`zctx_interrupted` read by the next evaluation of the condition on line 26, if
control reaches it after this poll. -/
structure Ev where
  poll : Poll
  interrupted : Bool
  deriving DecidableEq, Repr

/-- Where control is between two events. -/
inductive Pc where
  /-- Inside the inner loop, about to call `zmq_poll` (line 36). -/
  | awaiting
  /-- After `return 0` (line 84). -/
  | returned
  /-- After an operation whose behaviour ISO C does not define. -/
  | undefined
  deriving DecidableEq, Repr

/-- The local variables of `main`, the number of sockets created so far, and
the control point. -/
structure State where
  server_nbr : Nat
  client : Nat
  created : Nat
  sequence : Int
  request : String
  expect_reply : Bool
  pc : Pc
  deriving DecidableEq, Repr

/-- Result of one pass through the body of the inner loop (lines 36-79). -/
structure Iter where
  st : State
  effects : List Effect
  broke : Bool
  deriving DecidableEq, Repr

/-! ## The code of `main` -/

/-- Lines 10-25: context, first socket connected to `server [0]`, `sequence = 0`. -/
def startup : State × List Effect :=
  ({ server_nbr := 0, client := 0, created := 1, sequence := 0, request := "",
     expect_reply := false, pc := Pc.awaiting },
   [Effect.zctx_new,
    Effect.printf ("I: connecting to server at " ++ server 0 ++ "...\n"),
    Effect.zsocket_new 0,
    Effect.zsocket_connect 0 (server 0)])

/-- Lines 28-34: `sprintf (request, "%d", ++sequence); zstr_send (client, request);
expect_reply = 1`.  Undefined when the increment leaves `int` or the digits and
their terminator do not fit in `request [10]`. -/
def send_request (st : State) : State × List Effect :=
  let n := st.sequence + 1
  if n ≤ INT_MAX ∧ (sprintf_d n).length + 1 ≤ REQUEST_SIZE then
    ({ st with sequence := n, request := sprintf_d n, expect_reply := true, pc := Pc.awaiting },
     [Effect.zstr_send st.client (sprintf_d n)])
  else
    ({ st with pc := Pc.undefined }, [])

/-- Line 69: `server_nbr = (server_nbr + 1) % 2` on `uint`. -/
def swap (server_nbr : Nat) : Nat :=
  (server_nbr + 1) % 4294967296 % 2

/-- Lines 36-79: one pass through the body of the inner loop, for a given
outcome of the poll. -/
def await_step (o : Poll) (st : State) : Iter :=
  match o with
  | Poll.fail =>
    { st := st, effects := [Effect.zmq_poll st.client REQUEST_TIMEOUT], broke := true }
  | Poll.reply r =>
    match atoi r with
    | none =>
      { st := { st with pc := Pc.undefined },
        effects := [Effect.zmq_poll st.client REQUEST_TIMEOUT, Effect.zstr_recv st.client r],
        broke := false }
    | some v =>
      if v = st.sequence then
        { st := { st with expect_reply := false },
          effects := [Effect.zmq_poll st.client REQUEST_TIMEOUT, Effect.zstr_recv st.client r,
                      Effect.printf ("I: server replied OK (" ++ r ++ ")\n"),
                      Effect.sleep 1],
          broke := false }
      else
        { st := st,
          effects := [Effect.zmq_poll st.client REQUEST_TIMEOUT, Effect.zstr_recv st.client r,
                      Effect.printf ("E: bad reply from server: " ++ r ++ "\n")],
          broke := false }
  | Poll.timeout =>
    { st := { st with server_nbr := swap st.server_nbr, client := st.created,
                      created := st.created + 1 },
      effects := [Effect.zmq_poll st.client REQUEST_TIMEOUT,
                  Effect.printf "W: no response from server, failing over\n",
                  Effect.zsocket_destroy st.client,
                  Effect.zclock_sleep SETTLE_DELAY,
                  Effect.printf ("I: connecting to server at " ++ server (swap st.server_nbr)
                    ++ "...\n"),
                  Effect.zsocket_new st.created,
                  Effect.zsocket_connect st.created (server (swap st.server_nbr)),
                  Effect.zstr_send st.created st.request],
      broke := false }

/-- Line 26 and what follows it: when `zctx_interrupted` is set the loop is left
and the context destroyed (lines 82-84), otherwise a new request is sent. -/
def loop_head (interrupted : Bool) (st : State) : State × List Effect :=
  if interrupted then ({ st with pc := Pc.returned }, [Effect.zctx_destroy])
  else send_request st

/-- From one poll to the next: a pass through the inner loop and, when that
leaves the inner loop (`break`, or `expect_reply` cleared), the outer loop's
condition and the code after it. -/
def step (e : Ev) (st : State) : State × List Effect :=
  if st.pc = Pc.awaiting then
    let it := await_step e.poll st
    if it.st.pc = Pc.awaiting ∧ (it.broke = true ∨ it.st.expect_reply = false) then
      ((loop_head e.interrupted it.st).1, it.effects ++ (loop_head e.interrupted it.st).2)
    else (it.st, it.effects)
  else (st, [])

/-- Run the events from a state, appending the effects. -/
def run_from : State → List Ev → State × List Effect
  | st, [] => (st, [])
  | st, e :: es =>
    ((run_from (step e st).1 es).1, (step e st).2 ++ (run_from (step e st).1 es).2)

/-- The function `main`: start-up, the first evaluation of the loop condition
(`interrupted0` is the value of `zctx_interrupted` there), then the events. -/
def main (interrupted0 : Bool) (evs : List Ev) : State × List Effect :=
  let s1 := loop_head interrupted0 startup.1
  let r := run_from s1.1 evs
  (r.1, startup.2 ++ s1.2 ++ r.2)

/-! ## Views of a trace -/

/-- The payloads passed to `zstr_send`, in order. -/
def payloads : List Effect → List String
  | [] => []
  | Effect.zstr_send _ p :: es => p :: payloads es
  | _ :: es => payloads es

/-- The calls of `zstr_send`, in order: socket and payload. -/
def sends : List Effect → List (Nat × String)
  | [] => []
  | Effect.zstr_send s p :: es => (s, p) :: sends es
  | _ :: es => sends es

/-- The sockets passed to `zsocket_destroy`, in order. -/
def destroyed : List Effect → List Nat
  | [] => []
  | Effect.zsocket_destroy s :: es => s :: destroyed es
  | _ :: es => destroyed es

/-- The calls of `zsocket_connect`, in order: socket and endpoint. -/
def connects : List Effect → List (Nat × String)
  | [] => []
  | Effect.zsocket_connect s a :: es => (s, a) :: connects es
  | _ :: es => connects es

/-- Each payload passed to `zstr_send`, with the endpoint its socket had been
connected to (`conn` lists the connections made before the trace). -/
def wire (conn : List (Nat × String)) : List Effect → List (Option String × String)
  | [] => []
  | Effect.zsocket_connect s a :: es => wire ((s, a) :: conn) es
  | Effect.zstr_send s p :: es => (conn.lookup s, p) :: wire conn es
  | _ :: es => wire conn es

/-! ## Descriptions of states, replies and runs used by the statements -/

/-- A request with sequence `k` is outstanding: control is in the inner loop
with `expect_reply` set, `sequence` is `k`, and `request` holds the digits of
`k`, which fit in `request [10]`. -/
def outstanding (st : State) (k : Int) : Prop :=
  st.pc = Pc.awaiting ∧ st.expect_reply = true ∧ st.sequence = k ∧
  st.request = sprintf_d k ∧ st.request.length + 1 ≤ REQUEST_SIZE

/-- Whether a request is outstanding can be computed. -/
instance (st : State) (k : Int) : Decidable (outstanding st k) := by
  unfold outstanding; infer_instance

/-- The state in which request `k` is outstanding on socket `client`, the
`created`-th socket made, connected to `server [server_nbr]`. -/
def awaiting_state (server_nbr client created : Nat) (k : Int) : State :=
  { server_nbr := server_nbr, client := client, created := created, sequence := k,
    request := sprintf_d k, expect_reply := true, pc := Pc.awaiting }

/-- A payload in which `strtol` finds no digit to convert: after the white
space and an optional sign the input ends, or goes on with a character that is
not a digit. -/
def no_conversion (s : String) : Bool :=
  match skip_space s.data with
  | [] => true
  | c :: cs =>
    if c = '-' ∨ c = '+' then
      match cs with
      | [] => true
      | d :: _ => !isdigit d
    else !isdigit c

/-- The event is a poll that delivers a reply whose number, as `atoi` reads it,
is the sequence outstanding in `st`. -/
def matches_outstanding (st : State) (e : Ev) : Bool :=
  match e.poll with
  | Poll.reply r => decide (atoi r = some st.sequence)
  | _ => false

/-- Every event of the list is a successful round-trip: the client is waiting,
and the poll delivers a reply that matches the sequence outstanding then. -/
def round_trips : State → List Ev → Bool
  | _, [] => true
  | st, e :: es =>
    decide (st.pc = Pc.awaiting) && matches_outstanding st e && round_trips (step e st).1 es

/-- Number of events of a run that are replies matching the outstanding
sequence. -/
def matched_count : State → List Ev → Nat
  | _, [] => 0
  | st, e :: es =>
    (if st.pc = Pc.awaiting ∧ matches_outstanding st e = true then 1 else 0)
      + matched_count (step e st).1 es

/-- The events of `N` round-trips with a server that echoes each request:
replies `"1"`, ..., `"N"`, no interruption. -/
def echo (N : Nat) : List Ev :=
  (List.range' 1 N).map
    (fun (i : Nat) => { poll := Poll.reply (sprintf_d (i : Int)), interrupted := false })

/-- The decimal strings of the `M` numbers `a`, `a + 1`, ..., as `sprintf`
writes them. -/
def decimals (a M : Nat) : List String :=
  (List.range' a M).map (fun (i : Nat) => sprintf_d (i : Int))

/-- Value of a string of decimal digits. -/
def decimal_value (cs : List Char) : Nat :=
  cs.foldl (fun a c => a * 10 + (c.toNat - 48)) 0

/-- The reading of "parsed as a decimal integer" in the specification: the
whole payload is an optional sign followed by one or more decimal digits;
`none` for every other payload. -/
def decimal_integer (s : String) : Option Int :=
  match s.data with
  | [] => none
  | c :: cs =>
    if c = '-' then
      (if cs ≠ [] ∧ cs.all isdigit = true then some (- (decimal_value cs : Int)) else none)
    else if c = '+' then
      (if cs ≠ [] ∧ cs.all isdigit = true then some (decimal_value cs : Int) else none)
    else
      (if (c :: cs).all isdigit = true then some (decimal_value (c :: cs) : Int) else none)

/-- The payload sent last and not acknowledged, after a trace: `zstr_send`
makes its payload pending, a received reply whose number is that of the pending
payload acknowledges it. -/
def pending_after : Option String → List Effect → Option String
  | pending, [] => pending
  | _, Effect.zstr_send _ p :: es => pending_after (some p) es
  | some q, Effect.zstr_recv _ r :: es =>
    if atoi r ≠ none ∧ atoi r = atoi q then pending_after none es
    else pending_after (some q) es
  | pending, _ :: es => pending_after pending es

/-- No two different payloads are unacknowledged at any point of the trace:
whenever `zstr_send` is called while a payload is pending, it is called with
that same payload. -/
def one_in_flight : Option String → List Effect → Bool
  | _, [] => true
  | some q, Effect.zstr_send _ p :: es => decide (p = q) && one_in_flight (some p) es
  | none, Effect.zstr_send _ p :: es => one_in_flight (some p) es
  | some q, Effect.zstr_recv _ r :: es =>
    if atoi r ≠ none ∧ atoi r = atoi q then one_in_flight none es
    else one_in_flight (some q) es
  | pending, _ :: es => one_in_flight pending es

/-- No request is sent ahead of its turn: whenever `zstr_send` is called with a
payload other than the pending one, the pending request has gone through a
failover (`failed_over`: its socket was destroyed since it was first sent). -/
def never_ahead : Option String → Bool → List Effect → Bool
  | _, _, [] => true
  | some q, failed_over, Effect.zstr_send _ p :: es =>
    if p = q then never_ahead (some p) failed_over es
    else failed_over && never_ahead (some p) false es
  | none, _, Effect.zstr_send _ p :: es => never_ahead (some p) false es
  | some q, failed_over, Effect.zstr_recv _ r :: es =>
    if atoi r ≠ none ∧ atoi r = atoi q then never_ahead none false es
    else never_ahead (some q) failed_over es
  | pending, _, Effect.zsocket_destroy _ :: es => never_ahead pending true es
  | pending, failed_over, _ :: es => never_ahead pending failed_over es

/-- The effects that make up a failover (lines 68-75): destroying a socket,
the settle sleep, creating a socket, connecting it. -/
def is_failover_effect : Effect → Bool
  | Effect.zsocket_destroy _ => true
  | Effect.zclock_sleep _ => true
  | Effect.zsocket_new _ => true
  | Effect.zsocket_connect _ _ => true
  | _ => false

/-- What links the state to the pending payload while the client waits:
`expect_reply` is set, the pending payload is the content of `request`, and
`atoi` reads `sequence` from it. -/
def flight_inv (st : State) (pending : Option String) : Prop :=
  st.pc = Pc.awaiting →
    st.expect_reply = true ∧ pending = some st.request ∧ atoi st.request = some st.sequence

/-- What a trace has done to the sockets: the socket created last with the
endpoint it is connected to (if any), and the sockets destroyed. -/
structure Sockets where
  current : Option (Nat × Option String)
  closed : List Nat
  made : List Nat
  deriving DecidableEq, Repr

/-- The socket `s` is the one created last, it is connected, and it has not
been destroyed. -/
def usable (t : Sockets) (s : Nat) : Bool :=
  match t.current with
  | some (c, some _) => decide (c = s) && decide (s ∉ t.closed)
  | _ => false

/-- The socket discipline, checked along a trace: `zsocket_new` returns a
handle not returned before; `zsocket_connect` is called on the socket created
last, which is not yet connected; `zstr_send`, `zmq_poll` and `zstr_recv` are
called on the socket created last, which is connected and not destroyed.
`none` when an effect breaks the discipline. -/
def track : Sockets → List Effect → Option Sockets
  | t, [] => some t
  | t, Effect.zsocket_new s :: es =>
    if s ∈ t.made then none else track { t with current := some (s, none), made := s :: t.made } es
  | t, Effect.zsocket_connect s a :: es =>
    if t.current = some (s, none) then track { t with current := some (s, some a) } es else none
  | t, Effect.zstr_send s _ :: es =>
    if usable t s then track t es else none
  | t, Effect.zmq_poll s _ :: es =>
    if usable t s then track t es else none
  | t, Effect.zstr_recv s _ :: es =>
    if usable t s then track t es else none
  | t, Effect.zsocket_destroy s :: es => track { t with closed := s :: t.closed } es
  | t, _ :: es => track t es

/-- What links the state to the sockets of the trace so far: the socket created
last is `client`, it is connected to `server [server_nbr]` and not destroyed,
and every handle handed out so far is below `created`. -/
def bound_inv (st : State) (t : Sockets) : Prop :=
  t.current = some (st.client, some (server st.server_nbr)) ∧
  st.client ∉ t.closed ∧ st.client < st.created ∧
  (∀ s ∈ t.made, s < st.created) ∧ (∀ s ∈ t.closed, s < st.created)

/-- The sockets created by `zsocket_new`, in order. -/
def news : List Effect → List Nat
  | [] => []
  | Effect.zsocket_new s :: es => s :: news es
  | _ :: es => news es

/-- The sockets of a trace: those open, and those closed, in the order in which
they were closed. -/
structure Life where
  live : List Nat
  closed : List Nat
  deriving DecidableEq, Repr

/-- Modelled from the spec: `zctx_destroy` is a function of czmq and not under
`src/`; the specification has the shutdown path end in "orderly resource
release (handle closed)", and czmq destroys a context together with the sockets
made in it by `zsocket_new`.  So here `zctx_destroy` closes every socket that is
still open.  The other cases follow the calls in `main`: `zsocket_new` opens a
socket that was never open before, `zsocket_destroy` closes an open socket, and
`zsocket_connect`, `zstr_send`, `zmq_poll` and `zstr_recv` need an open socket.
`none` when a socket is opened twice, closed while not open, or used while not
open. -/
def lifecycle : Life → List Effect → Option Life
  | l, [] => some l
  | l, Effect.zsocket_new s :: es =>
    if s ∈ l.live ∨ s ∈ l.closed then none else lifecycle { l with live := l.live ++ [s] } es
  | l, Effect.zsocket_destroy s :: es =>
    if s ∈ l.live then lifecycle { live := l.live.erase s, closed := l.closed ++ [s] } es
    else none
  | l, Effect.zctx_destroy :: es =>
    lifecycle { live := [], closed := l.closed ++ l.live } es
  | l, Effect.zsocket_connect s _ :: es => if s ∈ l.live then lifecycle l es else none
  | l, Effect.zstr_send s _ :: es => if s ∈ l.live then lifecycle l es else none
  | l, Effect.zmq_poll s _ :: es => if s ∈ l.live then lifecycle l es else none
  | l, Effect.zstr_recv s _ :: es => if s ∈ l.live then lifecycle l es else none
  | l, _ :: es => lifecycle l es

/-- What links the state to the sockets opened and closed so far: while `main`
has not returned the socket in `client`, the one created last, is the only one
open and the earlier ones are closed; after the return none is open and all
are closed. -/
def life_inv (st : State) (l : Life) : Prop :=
  st.created = st.client + 1 ∧
  (st.pc ≠ Pc.returned → l.live = [st.client] ∧ l.closed = List.range st.client) ∧
  (st.pc = Pc.returned → l.live = [] ∧ l.closed = List.range st.created)

/-- The payload is the output of `sprintf` for a number from 1 to 999999999. -/
def issued (p : String) : Prop :=
  ∃ n : Nat, 1 ≤ n ∧ n ≤ 999999999 ∧ p = sprintf_d (n : Int)

/-- What the state holds while the client waits: `sequence` is not negative and
`request` is the output of `sprintf` for a number from 1 to 999999999. -/
def issued_inv (st : State) : Prop :=
  0 ≤ st.sequence ∧ (st.pc = Pc.awaiting → issued st.request)

/-- A trace without its `printf` calls. -/
def actions : List Effect → List Effect
  | [] => []
  | Effect.printf _ :: es => actions es
  | x :: es => x :: actions es

/-- The seconds passed to `sleep`, in order. -/
def pauses : List Effect → List Nat
  | [] => []
  | Effect.sleep s :: es => s :: pauses es
  | _ :: es => pauses es

/-- The timeouts, in msecs, passed to `zmq_poll`, in order. -/
def poll_timeouts : List Effect → List Nat
  | [] => []
  | Effect.zmq_poll _ t :: es => t :: poll_timeouts es
  | _ :: es => poll_timeouts es

/-- The time spent in the calls of `zmq_poll` of a trace, in msecs, when the
i-th call returns after `waits[i]` msecs.  A call returns when there is input,
or when its timeout has run out: `none` when a wait is longer than the timeout
of its call, or when there are not as many waits as calls. -/
def waited : List Effect → List Nat → Option Nat
  | [], [] => some 0
  | [], _ :: _ => none
  | Effect.zmq_poll _ t :: es, w :: ws =>
    if w ≤ t then (waited es ws).map (fun T => w + T) else none
  | Effect.zmq_poll _ _ :: _, [] => none
  | _ :: es, ws => waited es ws

/-- What holds of the counter while the client waits: `expect_reply` is set and
`sequence` is the number of a request that fits the buffer, from 1 to
999999999. -/
def count_inv (st : State) : Prop :=
  st.pc = Pc.awaiting → st.expect_reply = true ∧ 1 ≤ st.sequence ∧ st.sequence ≤ 999999999

/-- The event makes the client leave the inner loop from the state `st`: the
poll fails (line 39), or it delivers a reply that matches the outstanding
sequence (line 55). -/
def leaves_inner_loop (st : State) (e : Ev) : Bool :=
  decide (e.poll = Poll.fail) || matches_outstanding st e

/-! ## Lemmas on `sprintf` and `atoi` -/

/-- The digits are put in front of the accumulator. -/
theorem toDigitsCore_acc (f : Nat) : ∀ (n : Nat) (acc : List Char),
    Nat.toDigitsCore 10 f n acc = Nat.toDigitsCore 10 f n [] ++ acc := by
  induction f with
  | zero => intro n acc; simp [Nat.toDigitsCore]
  | succ f ih =>
    intro n acc
    simp only [Nat.toDigitsCore]
    by_cases h : n / 10 = 0
    · simp [h]
    · simp only [h, if_false]
      rw [ih (n / 10) (Nat.digitChar (n % 10) :: acc), ih (n / 10) [Nat.digitChar (n % 10)]]
      simp

/-- With enough fuel the digits do not depend on the fuel. -/
theorem toDigitsCore_fuel (f1 : Nat) : ∀ (f2 n : Nat), n < f1 → n < f2 →
    Nat.toDigitsCore 10 f1 n [] = Nat.toDigitsCore 10 f2 n [] := by
  induction f1 with
  | zero => intro f2 n h; omega
  | succ f1 ih =>
    intro f2 n h1 h2
    cases f2 with
    | zero => omega
    | succ f2 =>
      simp only [Nat.toDigitsCore]
      by_cases h : n / 10 = 0
      · simp [h]
      · simp only [h, if_false]
        rw [toDigitsCore_acc f1, toDigitsCore_acc f2, ih f2 (n / 10) (by omega) (by omega)]

/-- A number below ten has one digit. -/
theorem toDigits_lt (n : Nat) (h : n < 10) : Nat.toDigits 10 n = [Nat.digitChar n] := by
  have h0 : n / 10 = 0 := by omega
  have h1 : n % 10 = n := by omega
  simp [Nat.toDigits, Nat.toDigitsCore, h0, h1]

/-- The digits of a number from ten on: those of its tenth, then its last digit. -/
theorem toDigits_ge (n : Nat) (h : 10 ≤ n) :
    Nat.toDigits 10 n = Nat.toDigits 10 (n / 10) ++ [Nat.digitChar (n % 10)] := by
  have h0 : ¬ n / 10 = 0 := by omega
  have e : Nat.toDigits 10 n = Nat.toDigitsCore 10 n (n / 10) [Nat.digitChar (n % 10)] := by
    simp [Nat.toDigits, Nat.toDigitsCore, h0]
  rw [e, toDigitsCore_acc, toDigitsCore_fuel n (n / 10 + 1) (n / 10) (by omega) (by omega)]
  rfl

/-- The ten digit characters: digits of the right value, neither space nor sign. -/
theorem isdigit_digitChar (d : Nat) (h : d < 10) :
    isdigit (Nat.digitChar d) = true ∧ (Nat.digitChar d).toNat - 48 = d ∧
    isspace (Nat.digitChar d) = false ∧ Nat.digitChar d ≠ '-' ∧ Nat.digitChar d ≠ '+' := by
  interval_cases d <;> decide

/-- Reading back the digits of `n` gives `n`, and reading goes on behind them. -/
theorem digits_value_toDigits (n : Nat) : ∀ rest : List Char,
    digits_value 0 (Nat.toDigits 10 n ++ rest) = digits_value n rest := by
  induction n using Nat.strong_induction_on with
  | _ n ih =>
    intro rest
    by_cases h : n < 10
    · rw [toDigits_lt n h]
      have hd := isdigit_digitChar n h
      simp [digits_value, hd.1, hd.2.1]
    · rw [toDigits_ge n (by omega), List.append_assoc, ih (n / 10) (by omega)]
      have hd := isdigit_digitChar (n % 10) (by omega)
      simp only [List.singleton_append, digits_value, hd.1, hd.2.1, if_true]
      congr 1
      omega

/-- The digits of a number start with a digit character. -/
theorem toDigits_head (n : Nat) :
    ∃ d tl, d < 10 ∧ Nat.toDigits 10 n = Nat.digitChar d :: tl := by
  induction n using Nat.strong_induction_on with
  | _ n ih =>
    by_cases h : n < 10
    · exact ⟨n, [], h, toDigits_lt n h⟩
    · obtain ⟨d, tl, hd, e⟩ := ih (n / 10) (by omega)
      exact ⟨d, tl ++ [Nat.digitChar (n % 10)], hd, by rw [toDigits_ge n (by omega), e]; rfl⟩

/-- A number has at most `e + 1` digits exactly when it is below `10 ^ (e + 1)`. -/
theorem toDigits_length_le (e : Nat) : ∀ n : Nat,
    (Nat.toDigits 10 n).length ≤ e + 1 ↔ n < 10 ^ (e + 1) := by
  induction e with
  | zero =>
    intro n
    by_cases h : n < 10
    · simp [toDigits_lt n h, h]
    · have hl := toDigits_head (n / 10)
      obtain ⟨d, tl, _, e⟩ := hl
      rw [toDigits_ge n (by omega), e]
      simp
      omega
  | succ e ih =>
    intro n
    by_cases h : n < 10
    · rw [toDigits_lt n h]
      have : 10 ^ 1 ≤ 10 ^ (e + 1 + 1) := Nat.pow_le_pow_right (by norm_num) (by omega)
      simp
      omega
    · rw [toDigits_ge n (by omega)]
      have := ih (n / 10)
      simp only [List.length_append, List.length_singleton, Nat.add_le_add_iff_right]
      rw [this, Nat.div_lt_iff_lt_mul (by norm_num), ← pow_succ]

/-- There is no white space in front of the digits of a number. -/
theorem skip_space_toDigits (m : Nat) (rest : List Char) :
    skip_space (Nat.toDigits 10 m ++ rest) = Nat.toDigits 10 m ++ rest := by
  obtain ⟨d, tl, hd, e⟩ := toDigits_head m
  rw [e]
  simp [skip_space, (isdigit_digitChar d hd).2.2.1]

/-- Conversion of the digits of `m` followed by other characters. -/
theorem strtol10_toDigits (m : Nat) (rest : List Char) :
    strtol10 (Nat.toDigits 10 m ++ rest) = (digits_value m rest : Int) := by
  unfold strtol10
  rw [skip_space_toDigits]
  obtain ⟨d, tl, hd, e⟩ := toDigits_head m
  have h := digits_value_toDigits m rest
  rw [e] at h ⊢
  have hc := isdigit_digitChar d hd
  simp only [List.cons_append, hc.2.2.2.1, hc.2.2.2.2, if_false]
  exact congrArg Nat.cast h

/-- The output of `sprintf` for a number that is not negative. -/
theorem sprintf_d_ofNat (m : Nat) : sprintf_d (m : Int) = String.mk (Nat.toDigits 10 m) := rfl

/-- Conversion reads back what `sprintf` wrote. -/
theorem strtol10_sprintf_d (n : Int) : strtol10 (sprintf_d n).data = n := by
  cases n with
  | ofNat m =>
    have h := strtol10_toDigits m []
    simp only [List.append_nil, digits_value] at h
    simpa [sprintf_d] using h
  | negSucc m =>
    have h := digits_value_toDigits (m + 1) []
    simp only [List.append_nil, digits_value] at h
    simp only [sprintf_d, strtol10, skip_space]
    have hs : isspace '-' = false := by decide
    simp only [hs, Bool.false_eq_true, if_false, if_true, Int.negSucc_eq]
    rw [h]
    push_cast
    ring

/-- On every `int`, `atoi` reads back what `sprintf` wrote. -/
theorem atoi_sprintf_d (n : Int) (h1 : INT_MIN ≤ n) (h2 : n ≤ INT_MAX) :
    atoi (sprintf_d n) = some n := by
  simp [atoi, strtol10_sprintf_d, h1, h2]

/-- The digits and the terminator fit in `request [10]` exactly up to 999999999. -/
theorem sprintf_d_fits (m : Nat) :
    (sprintf_d (m : Int)).length + 1 ≤ REQUEST_SIZE ↔ m ≤ 999999999 := by
  have h := toDigits_length_le 8 m
  simp only [sprintf_d_ofNat, String.length, REQUEST_SIZE]
  omega

/-- The digits, sign included, and the terminator fit in `request [10]` exactly
from -99999999 to 999999999. -/
theorem sprintf_d_fits_iff (k : Int) :
    (sprintf_d k).length + 1 ≤ REQUEST_SIZE ↔ -99999999 ≤ k ∧ k ≤ 999999999 := by
  cases k with
  | ofNat m =>
    have h := sprintf_d_fits m
    simp only [Int.ofNat_eq_coe] at h ⊢
    rw [h]
    omega
  | negSucc m =>
    have h := toDigits_length_le 7 (m + 1)
    simp only [sprintf_d, String.length, REQUEST_SIZE, List.length_cons, Int.negSucc_eq]
    omega

/-- A digit is not white space. -/
theorem isspace_of_isdigit (c : Char) (h : isdigit c = true) : isspace c = false := by
  simp only [isdigit, isspace, Bool.and_eq_true, decide_eq_true_eq, Bool.or_eq_false_iff,
    decide_eq_false_iff_not, Bool.and_eq_false_iff] at h ⊢
  omega

/-- Where no digit can be converted, the number read is 0. -/
theorem strtol10_no_conversion (s : String) (h : no_conversion s = true) :
    strtol10 s.data = 0 := by
  unfold no_conversion at h
  unfold strtol10
  cases hs : skip_space s.data with
  | nil => rfl
  | cons c cs =>
    rw [hs] at h
    simp only at h ⊢
    by_cases h1 : c = '-'
    · subst h1
      cases cs with
      | nil => simp [digits_value]
      | cons d ds =>
        simp at h
        simp [digits_value, h]
    · by_cases h2 : c = '+'
      · subst h2
        cases cs with
        | nil => simp [digits_value]
        | cons d ds =>
          simp at h
          simp [digits_value, h]
      · simp [h1, h2] at h
        simp [h1, h2, digits_value, h]

/-- Where no digit can be converted, `atoi` returns 0. -/
theorem atoi_no_conversion (s : String) (h : no_conversion s = true) : atoi s = some 0 := by
  simp [atoi, strtol10_no_conversion s h, INT_MIN, INT_MAX]

/-- On a string of digits the conversion is the fold of `decimal_value`. -/
theorem digits_value_all_digits (cs : List Char) : ∀ acc : Nat, cs.all isdigit = true →
    digits_value acc cs = cs.foldl (fun a c => a * 10 + (c.toNat - 48)) acc := by
  induction cs with
  | nil => intro acc _; rfl
  | cons c cs ih =>
    intro acc h
    simp only [List.all_cons, Bool.and_eq_true] at h
    simp [digits_value, h.1, ih _ h.2]

/-- Conversion stops in front of a character that is not a digit. -/
theorem digits_value_stop (m : Nat) (t : List Char) (ht : ∀ c ∈ t.head?, isdigit c = false) :
    digits_value m t = m := by
  cases t with
  | nil => rfl
  | cons c cs => simp [digits_value, ht c (by simp)]

/-- On a payload that is a decimal integer, `strtol` reads its value. -/
theorem strtol10_decimal_integer (s : String) (v : Int) (h : decimal_integer s = some v) :
    strtol10 s.data = v := by
  unfold decimal_integer at h
  unfold strtol10
  cases hs : s.data with
  | nil => simp [hs] at h
  | cons c cs =>
    rw [hs] at h
    simp only at h
    by_cases h1 : c = '-'
    · subst h1
      have hsp : isspace '-' = false := by decide
      simp only [if_true] at h
      split at h
      · rename_i hc
        simp only [Option.some.injEq] at h
        simp [skip_space, hsp, ← h, decimal_value, digits_value_all_digits cs 0 hc.2]
      · simp at h
    · by_cases h2 : c = '+'
      · subst h2
        have hsp : isspace '+' = false := by decide
        simp only [h1, if_false, if_true] at h
        split at h
        · rename_i hc
          simp only [Option.some.injEq] at h
          simp [skip_space, hsp, ← h, decimal_value, digits_value_all_digits cs 0 hc.2]
        · simp at h
      · simp only [h1, h2, if_false] at h
        split at h
        · rename_i hc
          simp only [Option.some.injEq] at h
          have hd : isdigit c = true := by
            simp only [List.all_cons, Bool.and_eq_true] at hc
            exact hc.1
          simp [skip_space, isspace_of_isdigit c hd, h1, h2, ← h, decimal_value,
            digits_value_all_digits (c :: cs) 0 hc]
        · simp at h

/-- Characters behind the digits written by `sprintf` are not converted, unless
they go on with a digit. -/
theorem strtol10_sprintf_d_append (n : Int) (t : List Char)
    (ht : ∀ c ∈ t.head?, isdigit c = false) : strtol10 ((sprintf_d n).data ++ t) = n := by
  cases n with
  | ofNat m =>
    have h := strtol10_toDigits m t
    rw [digits_value_stop m t ht] at h
    simpa [sprintf_d] using h
  | negSucc m =>
    have h := digits_value_toDigits (m + 1) t
    rw [digits_value_stop _ t ht] at h
    have hs : isspace '-' = false := by decide
    simp only [sprintf_d, strtol10, skip_space, List.cons_append, hs, Bool.false_eq_true,
      if_false, if_true, Int.negSucc_eq]
    show -((digits_value 0 (Nat.toDigits 10 (m + 1) ++ t) : Nat) : Int) = -((m : Int) + 1)
    rw [h]
    push_cast
    ring

/-! ## Lemmas on the steps of `main` -/

/-- The payloads of two traces in a row. -/
theorem payloads_append (a b : List Effect) : payloads (a ++ b) = payloads a ++ payloads b := by
  induction a with
  | nil => rfl
  | cons x xs ih => cases x <;> simp [payloads, ih]

/-- The sends of two traces in a row. -/
theorem sends_append (a b : List Effect) : sends (a ++ b) = sends a ++ sends b := by
  induction a with
  | nil => rfl
  | cons x xs ih => cases x <;> simp [sends, ih]

/-- The connections of two traces in a row. -/
theorem connects_append (a b : List Effect) : connects (a ++ b) = connects a ++ connects b := by
  induction a with
  | nil => rfl
  | cons x xs ih => cases x <;> simp [connects, ih]

/-- The other index: `swap` sends 0 to 1, 1 to 0, and never leaves 0 and 1. -/
theorem swap_lt (i : Nat) : swap i < 2 ∧ (i < 2 → swap i = 1 - i) := by
  unfold swap
  omega

/-- A reply whose number is not the outstanding sequence: the pass through the
inner loop reports it and changes nothing. -/
theorem await_step_stale (st : State) (r : String) (v : Int) (hv : atoi r = some v)
    (hne : v ≠ st.sequence) :
    await_step (Poll.reply r) st =
      { st := st,
        effects := [Effect.zmq_poll st.client REQUEST_TIMEOUT, Effect.zstr_recv st.client r,
                    Effect.printf ("E: bad reply from server: " ++ r ++ "\n")],
        broke := false } := by
  simp [await_step, hv, hne]

/-- A reply whose number is the outstanding sequence: `expect_reply` is cleared
and the client sleeps one second. -/
theorem await_step_matched (st : State) (r : String) (hv : atoi r = some st.sequence) :
    await_step (Poll.reply r) st =
      { st := { st with expect_reply := false },
        effects := [Effect.zmq_poll st.client REQUEST_TIMEOUT, Effect.zstr_recv st.client r,
                    Effect.printf ("I: server replied OK (" ++ r ++ ")\n"), Effect.sleep 1],
        broke := false } := by
  simp [await_step, hv]

/-- The step of a matching reply: it is accepted, and the outer loop goes on. -/
theorem step_matched (st : State) (e : Ev) (h : st.pc = Pc.awaiting)
    (hm : matches_outstanding st e = true) :
    ∃ r, e.poll = Poll.reply r ∧ atoi r = some st.sequence ∧
      step e st = ((loop_head e.interrupted { st with expect_reply := false }).1,
        [Effect.zmq_poll st.client REQUEST_TIMEOUT, Effect.zstr_recv st.client r,
         Effect.printf ("I: server replied OK (" ++ r ++ ")\n"), Effect.sleep 1]
        ++ (loop_head e.interrupted { st with expect_reply := false }).2) := by
  cases hp : e.poll with
  | fail => simp [matches_outstanding, hp] at hm
  | timeout => simp [matches_outstanding, hp] at hm
  | reply r =>
    simp [matches_outstanding, hp] at hm
    refine ⟨r, rfl, hm, ?_⟩
    simp [step, h, hp, await_step, hm]

/-- The step of a timeout: the failover of lines 64-79, after which the inner
loop goes on. -/
theorem step_timeout (st : State) (e : Ev) (h : st.pc = Pc.awaiting) (hx : st.expect_reply = true)
    (he : e.poll = Poll.timeout) :
    step e st = ((await_step Poll.timeout st).st, (await_step Poll.timeout st).effects) := by
  simp [step, h, he, await_step, hx]

/-- A new request adds exactly one to `sequence`. -/
theorem send_request_sequence (st : State) (h : (send_request st).1.pc = Pc.awaiting) :
    (send_request st).1.sequence = st.sequence + 1 ∧
    (send_request st).1.request = sprintf_d (st.sequence + 1) ∧
    (send_request st).1.expect_reply = true ∧
    (send_request st).2 = [Effect.zstr_send st.client (sprintf_d (st.sequence + 1))] := by
  unfold send_request at h ⊢
  by_cases hc : st.sequence + 1 ≤ INT_MAX ∧
      (sprintf_d (st.sequence + 1)).length + 1 ≤ REQUEST_SIZE
  · simp [hc]
  · simp [hc] at h

/-- Outside the inner loop nothing happens any more. -/
theorem run_from_stuck : ∀ (evs : List Ev) (st : State), st.pc ≠ Pc.awaiting →
    run_from st evs = (st, []) := by
  intro evs
  induction evs with
  | nil => intro st _; rfl
  | cons e es ih =>
    intro st h
    have hs : step e st = (st, []) := by simp [step, h]
    simp [run_from, hs, ih st h]

/-! ## Successful round-trips -/

/-- Outside the inner loop no round-trip can follow. -/
theorem round_trips_stuck (st : State) (evs : List Ev) (h : st.pc ≠ Pc.awaiting)
    (hr : round_trips st evs = true) : evs = [] := by
  cases evs with
  | nil => rfl
  | cons e es => simp [round_trips, h] at hr

/-- From a state awaiting `k`, round-trips send the payloads `k + 1`, `k + 2`, ... -/
theorem round_trips_payloads : ∀ (evs : List Ev) (st : State) (k : Nat),
    st.pc = Pc.awaiting → st.sequence = (k : Int) → round_trips st evs = true →
    ∃ M, M ≤ evs.length ∧ evs.length ≤ M + 1 ∧
      payloads (run_from st evs).2 = decimals (k + 1) M := by
  intro evs
  induction evs with
  | nil => intro st k _ _ _; exact ⟨0, by simp, by simp, by simp [run_from, payloads, decimals]⟩
  | cons e es ih =>
    intro st k hpc hseq hr
    simp only [round_trips, Bool.and_eq_true, decide_eq_true_eq] at hr
    obtain ⟨⟨_, hm⟩, hrest⟩ := hr
    obtain ⟨r, _, _, hstep⟩ := step_matched st e hpc hm
    rw [hstep] at hrest
    simp only [run_from, hstep, payloads_append, payloads, List.nil_append]
    cases hi : e.interrupted with
    | true =>
      simp only [loop_head, hi, if_true] at hrest ⊢
      have := round_trips_stuck _ es (by simp) hrest
      subst this
      exact ⟨0, by simp, by simp, by simp [run_from, payloads, decimals]⟩
    | false =>
      simp only [loop_head, hi, Bool.false_eq_true, if_false] at hrest ⊢
      by_cases hd : st.sequence + 1 ≤ INT_MAX ∧
          (sprintf_d (st.sequence + 1)).length + 1 ≤ REQUEST_SIZE
      · simp only [send_request, hd, and_self, if_true] at hrest ⊢
        obtain ⟨M, h1, h2, h3⟩ := ih _ (k + 1) rfl (by simp [hseq]) hrest
        refine ⟨M + 1, by simp; omega, by simp; omega, ?_⟩
        rw [hseq] at h3
        simp only [payloads, decimals, List.range'_succ, List.map_cons, List.cons_append,
          List.nil_append, hseq, Nat.cast_add, Nat.cast_one]
        rw [h3, decimals]
      · simp only [send_request, hd, if_false] at hrest ⊢
        have := round_trips_stuck _ es (by simp) hrest
        subst this
        exact ⟨0, by simp, by simp, by simp [run_from, payloads, decimals]⟩

/-- Up to request 999999999 a server that echoes every request gives a run of
successful round-trips. -/
theorem round_trips_echo : ∀ (n k : Nat) (st : State), st.pc = Pc.awaiting →
    st.sequence = (k : Int) → k + n ≤ 1000000000 →
    round_trips st ((List.range' k n).map
      (fun (i : Nat) => { poll := Poll.reply (sprintf_d (i : Int)), interrupted := false })) = true := by
  intro n
  induction n with
  | zero => intro k st _ _ _; simp [round_trips]
  | succ n ih =>
    intro k st hpc hseq hk
    have hat : atoi (sprintf_d (k : Int)) = some (k : Int) :=
      atoi_sprintf_d k (by simp [INT_MIN]; omega) (by simp [INT_MAX]; omega)
    simp only [List.range'_succ, List.map_cons, round_trips, hpc, decide_True, Bool.true_and,
      matches_outstanding, hseq, hat, Bool.and_eq_true, true_and]
    cases n with
    | zero => simp [round_trips]
    | succ n =>
      have hfit : (sprintf_d ((k : Int) + 1)).length + 1 ≤ REQUEST_SIZE :=
        (sprintf_d_fits (k + 1)).2 (by omega)
      have hmax : (k : Int) + 1 ≤ INT_MAX := by simp [INT_MAX]; omega
      have hs : step { poll := Poll.reply (sprintf_d (k : Int)), interrupted := false } st =
          ({ st with sequence := (k : Int) + 1, request := sprintf_d ((k : Int) + 1),
                     expect_reply := true, pc := Pc.awaiting },
           [Effect.zmq_poll st.client REQUEST_TIMEOUT,
            Effect.zstr_recv st.client (sprintf_d (k : Int)),
            Effect.printf ("I: server replied OK (" ++ sprintf_d (k : Int) ++ ")\n"),
            Effect.sleep 1, Effect.zstr_send st.client (sprintf_d ((k : Int) + 1))]) := by
        simp [step, hpc, await_step, hat, hseq, loop_head, send_request, hfit, hmax]
      rw [hs]
      exact ih (k + 1) _ rfl (by simp) (by omega)

/-- For every N up to 999999999 the run of `main` against an echoing server
consists of N successful round-trips. -/
theorem echo_round_trips (N : Nat) (h : N ≤ 999999999) :
    round_trips (loop_head false startup.1).1 (echo N) = true := by
  have h0 : loop_head false startup.1 =
      (awaiting_state 0 0 1 1, [Effect.zstr_send 0 (sprintf_d 1)]) := by decide
  rw [h0]
  exact round_trips_echo N 1 _ rfl rfl (by omega)

/-! ## C1: the sequence on the wire -/

/-- C1: in every run of `main` made of N successful round-trips (each poll
delivers a reply that matches the outstanding sequence; no timeout, no poll
failure), the payloads passed to `zstr_send` are, in order, the decimal strings
of 1, 2, ..., M, where M is N or, when the request after the N-th reply has been
sent too, N + 1: the i-th request carries sequence i, without gap or repeat.
Runs of N round-trips exist for N up to 999999999 (`echo_round_trips`): the
request after that does not fit in `request [10]`. -/
theorem C1_wire_sequence (N : Nat) (evs : List Ev) (hlen : evs.length = N)
    (hrt : round_trips (loop_head false startup.1).1 evs = true) :
    ∃ M, N ≤ M ∧ M ≤ N + 1 ∧
      payloads (main false evs).2 = decimals 1 M := by
  have h0 : loop_head false startup.1 =
      (awaiting_state 0 0 1 1, [Effect.zstr_send 0 (sprintf_d 1)]) := by decide
  rw [h0] at hrt
  obtain ⟨M, h1, h2, h3⟩ := round_trips_payloads evs (awaiting_state 0 0 1 1) 1 rfl rfl hrt
  refine ⟨M + 1, by omega, by omega, ?_⟩
  simp only [main, h0, payloads_append, h3, decimals, List.range'_succ, List.map_cons]
  simp [startup, payloads]

/-- C1, witness: three round-trips with an echoing server. -/
theorem C1_wire_sequence_witness :
    round_trips (loop_head false startup.1).1 (echo 3) = true ∧
    ∃ M, 3 ≤ M ∧ M ≤ 3 + 1 ∧
      payloads (main false (echo 3)).2 = decimals 1 M :=
  ⟨by decide, C1_wire_sequence 3 (echo 3) (by decide) (by decide)⟩

/-! ## C2: retransmission after a timeout -/

/-- C2: while request `k` is outstanding, every poll that times out is followed
by one `zstr_send` on the socket just created, with the payload of the original
request, the decimal string of `k`; after any number of consecutive timeouts
`sequence` is still `k` and the same request is outstanding. -/
theorem C2_retransmission (st : State) (k : Int) (evs : List Ev) (h : outstanding st k)
    (ht : ∀ e ∈ evs, e.poll = Poll.timeout) :
    sends (run_from st evs).2
      = (List.range' st.created evs.length).map (fun (s : Nat) => (s, sprintf_d k)) ∧
    (run_from st evs).1.sequence = k ∧
    outstanding (run_from st evs).1 k := by
  induction evs generalizing st with
  | nil => exact ⟨by simp [run_from, sends], h.2.2.1, h⟩
  | cons e es ih =>
    have he : e.poll = Poll.timeout := ht e (List.mem_cons_self _ _)
    have hs := step_timeout st e h.1 h.2.1 he
    have h' : outstanding (step e st).1 k := by
      rw [hs]
      obtain ⟨h1, h2, h3, h4, h5⟩ := h
      exact ⟨h1, h2, h3, h4, h5⟩
    obtain ⟨i1, i2, i3⟩ := ih (step e st).1 h' (fun x hx => ht x (List.mem_cons_of_mem _ hx))
    refine ⟨?_, i2, i3⟩
    simp only [run_from, sends_append, i1]
    rw [hs]
    simp [await_step, sends, List.range'_succ, h.2.2.2.1]

/-- C2, witness (Scenario A): the primary does not answer request 1.  The
client sends "1" to the primary, after the timeout "1" to the backup, and after
the backup's reply "1" the next request is "2". -/
theorem C2_retransmission_witness :
    outstanding (awaiting_state 0 0 1 1) 1 ∧
    (sends (run_from (awaiting_state 0 0 1 1) [{ poll := Poll.timeout, interrupted := false }]).2
      = (List.range' 1 1).map (fun (s : Nat) => (s, sprintf_d 1)) ∧
     (run_from (awaiting_state 0 0 1 1) [{ poll := Poll.timeout, interrupted := false }]).1.sequence
      = 1 ∧
     outstanding
      (run_from (awaiting_state 0 0 1 1) [{ poll := Poll.timeout, interrupted := false }]).1 1) ∧
    wire [] (main false [{ poll := Poll.timeout, interrupted := false },
                         { poll := Poll.reply "1", interrupted := false }]).2
      = [(some "tcp://localhost:5001", "1"), (some "tcp://localhost:5002", "1"),
         (some "tcp://localhost:5002", "2")] ∧
    (main false [{ poll := Poll.timeout, interrupted := false },
                 { poll := Poll.reply "1", interrupted := false }]).1.sequence = 2 :=
  ⟨by decide,
   C2_retransmission (awaiting_state 0 0 1 1) 1 [{ poll := Poll.timeout, interrupted := false }]
     (by decide) (by decide),
   by decide, by decide⟩

/-! ## C3: stale replies -/

/-- C3, as it fails: while request 2 is outstanding the reply "2nd", which is
not a number, is not treated as stale: `atoi` reads 2 from it, the reply is
accepted and `expect_reply` is cleared. -/
theorem C3_counterexample :
    outstanding (awaiting_state 0 0 1 2) 2 ∧
    decimal_integer "2nd" = none ∧
    atoi "2nd" = some 2 ∧
    (await_step (Poll.reply "2nd") (awaiting_state 0 0 1 2)).st.expect_reply = false ∧
    (await_step (Poll.reply "2nd") (awaiting_state 0 0 1 2)).effects =
      [Effect.zmq_poll 0 1000, Effect.zstr_recv 0 "2nd",
       Effect.printf "I: server replied OK (2nd)\n", Effect.sleep 1] := by
  decide

/-- C3, amended: while request `k >= 1` is outstanding, a reply that is the
decimal string of `k - 1`, the decimal string of `k + 1`, or a payload from
which `atoi` reads a number other than `k` (0 when it finds no digit to convert:
after white space and an optional sign the payload ends or goes on with a
character that is not a digit), is stale: the pass through the inner loop leaves
every variable as it is (`sequence`, `server_nbr`, the socket; `expect_reply`
stays set), calls `zstr_send` not at all and does not leave the inner loop; and
a following reply that is the decimal string of `k` is accepted: `expect_reply`
is cleared. -/
theorem C3_stale_reply_immunity (st : State) (k : Int) (s : String) (b : Bool)
    (h : outstanding st k) (hk : 1 ≤ k)
    (hs : s = sprintf_d (k - 1) ∨ s = sprintf_d (k + 1) ∨ no_conversion s = true ∨
      ∃ v, atoi s = some v ∧ v ≠ k) :
    (await_step (Poll.reply s) st).st = st ∧
    (await_step (Poll.reply s) st).st.expect_reply = true ∧
    (await_step (Poll.reply s) st).broke = false ∧
    (await_step (Poll.reply s) st).effects =
      [Effect.zmq_poll st.client REQUEST_TIMEOUT, Effect.zstr_recv st.client s,
       Effect.printf ("E: bad reply from server: " ++ s ++ "\n")] ∧
    sends (await_step (Poll.reply s) st).effects = [] ∧
    step { poll := Poll.reply s, interrupted := b } st
      = (st, (await_step (Poll.reply s) st).effects) ∧
    (await_step (Poll.reply (sprintf_d k)) (await_step (Poll.reply s) st).st).st
      = { st with expect_reply := false } := by
  obtain ⟨h1, h2, h3, h4, h5⟩ := h
  have hr : -99999999 ≤ k ∧ k ≤ 999999999 := by
    rw [h4] at h5
    exact (sprintf_d_fits_iff k).1 h5
  have hat : ∀ j : Int, -1000000000 ≤ j → j ≤ 1000000000 → atoi (sprintf_d j) = some j := by
    intro j hj1 hj2
    apply atoi_sprintf_d
    · simp only [INT_MIN]; omega
    · simp only [INT_MAX]; omega
  have hstale : ∃ v, atoi s = some v ∧ v ≠ st.sequence := by
    rcases hs with hs | hs | hs | ⟨v, hv, hne⟩
    · refine ⟨k - 1, ?_, by omega⟩
      rw [hs]
      exact hat _ (by omega) (by omega)
    · refine ⟨k + 1, ?_, by omega⟩
      rw [hs]
      exact hat _ (by omega) (by omega)
    · exact ⟨0, atoi_no_conversion s hs, by omega⟩
    · exact ⟨v, hv, by rw [h3]; exact hne⟩
  obtain ⟨v, hv, hne⟩ := hstale
  have hk' : atoi (sprintf_d k) = some st.sequence := by
    rw [h3]
    exact hat _ (by omega) (by omega)
  have e := await_step_stale st s v hv hne
  refine ⟨by rw [e], by rw [e]; exact h2, by rw [e], by rw [e], by rw [e]; rfl, ?_, ?_⟩
  · simp [step, h1, e, h2]
  · rw [e, await_step_matched st _ hk']

/-- C3, amended, witness (Scenario C): the client awaits the reply to request 2 and a
stray reply "1" arrives; it is ignored, and the following "2" is accepted. -/
theorem C3_stale_reply_immunity_witness :
    (outstanding (awaiting_state 0 0 1 2) 2 ∧ sprintf_d (2 - 1) = "1" ∧ sprintf_d 2 = "2") ∧
    ((await_step (Poll.reply "1") (awaiting_state 0 0 1 2)).st = awaiting_state 0 0 1 2 ∧
     (await_step (Poll.reply "1") (awaiting_state 0 0 1 2)).st.expect_reply = true ∧
     (await_step (Poll.reply "1") (awaiting_state 0 0 1 2)).broke = false ∧
     (await_step (Poll.reply "1") (awaiting_state 0 0 1 2)).effects =
       [Effect.zmq_poll (awaiting_state 0 0 1 2).client REQUEST_TIMEOUT,
        Effect.zstr_recv (awaiting_state 0 0 1 2).client "1",
        Effect.printf ("E: bad reply from server: " ++ "1" ++ "\n")] ∧
     sends (await_step (Poll.reply "1") (awaiting_state 0 0 1 2)).effects = [] ∧
     step { poll := Poll.reply "1", interrupted := false } (awaiting_state 0 0 1 2)
       = (awaiting_state 0 0 1 2, (await_step (Poll.reply "1") (awaiting_state 0 0 1 2)).effects) ∧
     (await_step (Poll.reply (sprintf_d 2))
        (await_step (Poll.reply "1") (awaiting_state 0 0 1 2)).st).st
       = { awaiting_state 0 0 1 2 with expect_reply := false }) :=
  ⟨by decide,
   C3_stale_reply_immunity (awaiting_state 0 0 1 2) 2 "1" false (by decide) (by decide)
     (Or.inl (by decide))⟩

/-! ## C4: what counts as a matching reply -/

/-- C4, as it fails: while request 2 is outstanding the reply "2abc", digits
followed by other characters and not a decimal integer, is accepted. -/
theorem C4_counterexample :
    outstanding (awaiting_state 0 0 1 2) 2 ∧
    decimal_integer "2abc" = none ∧
    (await_step (Poll.reply "2abc") (awaiting_state 0 0 1 2)).st.expect_reply = false ∧
    (await_step (Poll.reply "2abc") (awaiting_state 0 0 1 2)).effects =
      [Effect.zmq_poll 0 1000, Effect.zstr_recv 0 "2abc",
       Effect.printf "I: server replied OK (2abc)\n", Effect.sleep 1] := by
  decide

/-- C4, amended: while request `k` is outstanding a reply `s` is accepted
(`expect_reply` cleared) exactly when `atoi (s)` is `k`, and is stale (nothing
changes) when `atoi (s)` is another number.  `atoi` reads the value of every
payload that is a decimal integer in the range of `int`; it reads 0 where there
is no digit to convert; and it reads `k` from the digits of `k` followed by
anything that does not go on with a digit. -/
theorem C4_reply_matching (st : State) (k : Int) (s : String) (h : outstanding st k) :
    ((await_step (Poll.reply s) st).st.expect_reply = false ↔ atoi s = some k) ∧
    (∀ v, atoi s = some v → v ≠ k → (await_step (Poll.reply s) st).st = st ∧
      sends (await_step (Poll.reply s) st).effects = []) ∧
    (∀ v, decimal_integer s = some v → INT_MIN ≤ v → v ≤ INT_MAX → atoi s = some v) ∧
    (decimal_integer s = some k → (await_step (Poll.reply s) st).st.expect_reply = false) ∧
    (no_conversion s = true → atoi s = some 0) ∧
    (∀ t : String, (∀ c ∈ t.data.head?, isdigit c = false) →
      (await_step (Poll.reply (sprintf_d k ++ t)) st).st.expect_reply = false) := by
  obtain ⟨h1, h2, h3, h4, h5⟩ := h
  have hr : -99999999 ≤ k ∧ k ≤ 999999999 := by
    rw [h4] at h5
    exact (sprintf_d_fits_iff k).1 h5
  have hmin : INT_MIN ≤ k := by simp only [INT_MIN]; omega
  have hmax : k ≤ INT_MAX := by simp only [INT_MAX]; omega
  have hiff : (await_step (Poll.reply s) st).st.expect_reply = false ↔ atoi s = some k := by
    cases ha : atoi s with
    | none => simp [await_step, ha, h2]
    | some v =>
      by_cases hv : v = st.sequence
      · subst hv
        rw [await_step_matched st s ha]
        simp [h3]
      · rw [await_step_stale st s v ha hv]
        simp [h2, ← h3, hv]
  have hdec : ∀ v, decimal_integer s = some v → INT_MIN ≤ v → v ≤ INT_MAX → atoi s = some v := by
    intro v hv hv1 hv2
    simp [atoi, strtol10_decimal_integer s v hv, hv1, hv2]
  refine ⟨hiff, ?_, hdec, ?_, atoi_no_conversion s, ?_⟩
  · intro v hv hne
    rw [await_step_stale st s v hv (by rw [h3]; exact hne)]
    exact ⟨rfl, rfl⟩
  · intro hd
    exact hiff.2 (hdec k hd hmin hmax)
  · intro t ht
    have ha : atoi (sprintf_d k ++ t) = some st.sequence := by
      simp [atoi, String.data_append, strtol10_sprintf_d_append k t.data ht, hmin, hmax, h3]
    rw [await_step_matched st _ ha]

/-- C4, amended, witness: request 2 is outstanding and the reply is "2abc". -/
theorem C4_reply_matching_witness :
    outstanding (awaiting_state 0 0 1 2) 2 ∧
    ((await_step (Poll.reply "2abc") (awaiting_state 0 0 1 2)).st.expect_reply = false
      ↔ atoi "2abc" = some 2) :=
  ⟨by decide, (C4_reply_matching (awaiting_state 0 0 1 2) 2 "2abc" (by decide)).1⟩

/-! ## C5: alternation of the servers -/

/-- A run of timeouts keeps the index in step with the number of sockets
created, and connects each new socket to the server the index has moved to. -/
theorem timeouts_alternate (c : Nat) : ∀ (evs : List Ev) (st : State), st.pc = Pc.awaiting →
    st.expect_reply = true → st.server_nbr = (st.created + c) % 2 →
    (∀ e ∈ evs, e.poll = Poll.timeout) →
    (run_from st evs).1.server_nbr = ((run_from st evs).1.created + c) % 2 ∧
    (run_from st evs).1.created = st.created + evs.length ∧
    (run_from st evs).1.pc = Pc.awaiting ∧
    (run_from st evs).1.expect_reply = true ∧
    connects (run_from st evs).2 =
      (List.range' st.created evs.length).map (fun (s : Nat) => (s, server ((s + c + 1) % 2))) := by
  intro evs
  induction evs with
  | nil => intro st h hx hi _; exact ⟨hi, rfl, h, hx, rfl⟩
  | cons e es ih =>
    intro st h hx hi ht
    have hs := step_timeout st e h hx (ht e (List.mem_cons_self _ _))
    have hsw : swap st.server_nbr = (st.created + c + 1) % 2 := by
      unfold swap
      omega
    simp only [run_from, hs, connects_append]
    obtain ⟨i1, i2, i3, i4, i5⟩ := ih (await_step Poll.timeout st).st h hx
      (by simp only [await_step, hsw]; omega) (fun x hx => ht x (List.mem_cons_of_mem _ hx))
    refine ⟨i1, ?_, i3, i4, ?_⟩
    · rw [i2]
      simp only [await_step, List.length_cons]
      omega
    · rw [i5]
      simp only [await_step, connects, hsw, List.length_cons, List.range'_succ, List.map_cons,
        List.cons_append, List.nil_append]

/-- C5: starting from `server_nbr = 0`, after N consecutive timeouts (no reply
accepted in between) the active index is N mod 2, so it runs 0, 1, 0, 1, ...;
each timeout replaces the index once, by the other one; the index is 0 or 1
throughout; and the N sockets created on the way are connected to
`server [1]`, `server [0]`, `server [1]`, ... in turn. -/
theorem C5_failover_alternation (st : State) (N : Nat) (evs : List Ev)
    (hpc : st.pc = Pc.awaiting) (hx : st.expect_reply = true) (h0 : st.server_nbr = 0)
    (hlen : evs.length = N) (ht : ∀ e ∈ evs, e.poll = Poll.timeout) :
    (run_from st evs).1.server_nbr = N % 2 ∧
    (run_from st evs).1.server_nbr < 2 ∧
    (∀ e : Ev, e.poll = Poll.timeout →
      (step e (run_from st evs).1).1.server_nbr = 1 - (run_from st evs).1.server_nbr) ∧
    connects (run_from st evs).2 =
      (List.range N).map (fun (i : Nat) => (st.created + i, server ((i + 1) % 2))) := by
  obtain ⟨i1, i2, i3, i4, i5⟩ := timeouts_alternate (st.created % 2) evs st hpc hx
    (by rw [h0]; omega) ht
  have hN : (run_from st evs).1.server_nbr = N % 2 := by
    rw [i1, i2, hlen]
    omega
  rw [hN]
  refine ⟨rfl, Nat.mod_lt _ (by decide), ?_, ?_⟩
  · intro e he
    rw [step_timeout _ e i3 i4 he]
    simp only [await_step, hN]
    exact (swap_lt _).2 (Nat.mod_lt _ (by decide))
  · rw [i5, hlen, List.range'_eq_map_range, List.map_map]
    apply List.map_congr_left
    intro i _
    simp only [Function.comp, Prod.mk.injEq, true_and]
    congr 1
    omega

/-- C5, witness: the first request of `main` meets three timeouts in a row. -/
theorem C5_failover_alternation_witness :
    (loop_head false startup.1).1 = awaiting_state 0 0 1 1 ∧
    (∀ e ∈ List.replicate 3 ({ poll := Poll.timeout, interrupted := false } : Ev),
      e.poll = Poll.timeout) ∧
    (run_from (awaiting_state 0 0 1 1)
      (List.replicate 3 { poll := Poll.timeout, interrupted := false })).1.server_nbr = 3 % 2 ∧
    connects (run_from (awaiting_state 0 0 1 1)
      (List.replicate 3 { poll := Poll.timeout, interrupted := false })).2
      = (List.range 3).map
          (fun (i : Nat) => ((awaiting_state 0 0 1 1).created + i, server ((i + 1) % 2))) :=
  ⟨by decide, by decide,
   (C5_failover_alternation (awaiting_state 0 0 1 1) 3
      (List.replicate 3 { poll := Poll.timeout, interrupted := false })
      rfl rfl rfl (by decide) (by decide)).1,
   (C5_failover_alternation (awaiting_state 0 0 1 1) 3
      (List.replicate 3 { poll := Poll.timeout, interrupted := false })
      rfl rfl rfl (by decide) (by decide)).2.2.2⟩

/-! ## C6: one request in flight -/

/-- The check of two traces in a row. -/
theorem one_in_flight_append (a b : List Effect) : ∀ p : Option String,
    one_in_flight p (a ++ b) = (one_in_flight p a && one_in_flight (pending_after p a) b) := by
  induction a with
  | nil => intro p; simp [one_in_flight, pending_after]
  | cons x xs ih =>
    intro p
    cases x <;> cases p <;> simp [one_in_flight, pending_after, ih, Bool.and_assoc]
    all_goals split <;> simp [ih]

/-- The pending payload after two traces in a row. -/
theorem pending_after_append (a b : List Effect) : ∀ p : Option String,
    pending_after p (a ++ b) = pending_after (pending_after p a) b := by
  induction a with
  | nil => intro p; simp [pending_after]
  | cons x xs ih =>
    intro p
    cases x <;> cases p <;> simp [pending_after, ih]
    all_goals split <;> simp [ih]

/-- A trace with one payload in flight at a time has no request sent ahead of
its turn. -/
theorem never_ahead_of_one_in_flight (es : List Effect) : ∀ (p : Option String) (f : Bool),
    one_in_flight p es = true → never_ahead p f es = true := by
  induction es with
  | nil => intro p f _; simp [never_ahead]
  | cons x xs ih =>
    intro p f h
    cases x with
    | zstr_send s pl =>
      cases p with
      | none =>
        simp only [one_in_flight, never_ahead] at h ⊢
        exact ih _ _ h
      | some q =>
        simp only [one_in_flight, never_ahead, Bool.and_eq_true, decide_eq_true_eq] at h ⊢
        rw [if_pos h.1]
        exact ih _ _ h.2
    | zstr_recv s r =>
      cases p with
      | none =>
        simp only [one_in_flight, never_ahead] at h ⊢
        exact ih _ _ h
      | some q =>
        simp only [one_in_flight, never_ahead] at h ⊢
        by_cases hc : atoi r ≠ none ∧ atoi r = atoi q
        · rw [if_pos hc] at h ⊢
          exact ih _ _ h
        · rw [if_neg hc] at h ⊢
          exact ih _ _ h
    | zsocket_destroy s =>
      cases p <;> (simp only [one_in_flight, never_ahead] at h ⊢; exact ih _ _ h)
    | zctx_new => cases p <;> (simp only [one_in_flight, never_ahead] at h ⊢; exact ih _ _ h)
    | printf t => cases p <;> (simp only [one_in_flight, never_ahead] at h ⊢; exact ih _ _ h)
    | zsocket_new s => cases p <;> (simp only [one_in_flight, never_ahead] at h ⊢; exact ih _ _ h)
    | zsocket_connect s a =>
      cases p <;> (simp only [one_in_flight, never_ahead] at h ⊢; exact ih _ _ h)
    | zmq_poll s t => cases p <;> (simp only [one_in_flight, never_ahead] at h ⊢; exact ih _ _ h)
    | zclock_sleep t => cases p <;> (simp only [one_in_flight, never_ahead] at h ⊢; exact ih _ _ h)
    | sleep t => cases p <;> (simp only [one_in_flight, never_ahead] at h ⊢; exact ih _ _ h)
    | zctx_destroy => cases p <;> (simp only [one_in_flight, never_ahead] at h ⊢; exact ih _ _ h)

/-- The loop head, entered with nothing pending, keeps one payload in flight
and leaves the new request pending. -/
theorem loop_head_flight (b : Bool) (st : State) :
    one_in_flight none (loop_head b st).2 = true ∧
    flight_inv (loop_head b st).1 (pending_after none (loop_head b st).2) := by
  cases b with
  | true => simp [loop_head, one_in_flight, flight_inv]
  | false =>
    simp only [loop_head, Bool.false_eq_true, if_false, send_request]
    split
    · rename_i hc
      have hr := (sprintf_d_fits_iff _).1 hc.2
      have ha : atoi (sprintf_d (st.sequence + 1)) = some (st.sequence + 1) := by
        apply atoi_sprintf_d
        · simp only [INT_MIN]; omega
        · exact hc.1
      simp [one_in_flight, pending_after, flight_inv, ha]
    · simp [one_in_flight, flight_inv]

/-- One step keeps one payload in flight, provided a failed poll comes with the
interruption flag set. -/
theorem step_flight (st : State) (e : Ev) (p : Option String) (hinv : flight_inv st p)
    (he : e.poll = Poll.fail → e.interrupted = true) :
    one_in_flight p (step e st).2 = true ∧
    flight_inv (step e st).1 (pending_after p (step e st).2) := by
  by_cases hpc : st.pc = Pc.awaiting
  · obtain ⟨hx, hp, ha⟩ := hinv hpc
    subst hp
    cases hpoll : e.poll with
    | fail =>
      have hi := he hpoll
      simp [step, hpc, hpoll, await_step, loop_head, hi, one_in_flight, flight_inv]
    | timeout =>
      rw [step_timeout st e hpc hx hpoll]
      simp [await_step, one_in_flight, pending_after, flight_inv, ha, hx]
    | reply r =>
      cases hr : atoi r with
      | none =>
        simp [step, hpc, hpoll, await_step, hr, one_in_flight, flight_inv]
      | some v =>
        by_cases hv : v = st.sequence
        · subst hv
          have hl := loop_head_flight e.interrupted { st with expect_reply := false }
          have hs : step e st = ((loop_head e.interrupted { st with expect_reply := false }).1,
              [Effect.zmq_poll st.client REQUEST_TIMEOUT, Effect.zstr_recv st.client r,
               Effect.printf ("I: server replied OK (" ++ r ++ ")\n"), Effect.sleep 1]
              ++ (loop_head e.interrupted { st with expect_reply := false }).2) := by
            simp [step, hpc, hpoll, await_step_matched st r hr]
          rw [hs, one_in_flight_append, pending_after_append]
          have hc : atoi r ≠ none ∧ atoi r = atoi st.request := by simp [hr, ha]
          simp only [one_in_flight, pending_after, if_pos hc, Bool.true_and]
          exact hl
        · have hs : step e st = (st,
              [Effect.zmq_poll st.client REQUEST_TIMEOUT, Effect.zstr_recv st.client r,
               Effect.printf ("E: bad reply from server: " ++ r ++ "\n")]) := by
            simp [step, hpc, hpoll, await_step_stale st r v hr hv, hx]
          have hc : ¬ (atoi r ≠ none ∧ atoi r = atoi st.request) := by
            simp [hr, ha, hv]
          rw [hs]
          simp only [one_in_flight, pending_after, if_neg hc]
          exact ⟨trivial, fun _ => ⟨hx, rfl, ha⟩⟩
  · simp [step, hpc, one_in_flight, pending_after, flight_inv]

/-- A run keeps one payload in flight, provided every failed poll comes with the
interruption flag set. -/
theorem run_from_flight : ∀ (evs : List Ev) (st : State) (p : Option String),
    flight_inv st p → (∀ e ∈ evs, e.poll = Poll.fail → e.interrupted = true) →
    one_in_flight p (run_from st evs).2 = true := by
  intro evs
  induction evs with
  | nil => intro st p _ _; simp [run_from, one_in_flight]
  | cons e es ih =>
    intro st p hinv h
    obtain ⟨h1, h2⟩ := step_flight st e p hinv (h e (List.mem_cons_self _ _))
    simp only [run_from, one_in_flight_append, h1, Bool.true_and]
    exact ih _ _ h2 (fun x hx => h x (List.mem_cons_of_mem _ hx))

/-- C6, as it fails: the first poll fails and `zctx_interrupted` is not set.
The client sends "1" and then "2" on the same socket, with no reply received
and no failover in between. -/
theorem C6_counterexample :
    (main false [{ poll := Poll.fail, interrupted := false }]).2 =
      [Effect.zctx_new, Effect.printf "I: connecting to server at tcp://localhost:5001...\n",
       Effect.zsocket_new 0, Effect.zsocket_connect 0 "tcp://localhost:5001",
       Effect.zstr_send 0 "1", Effect.zmq_poll 0 1000, Effect.zstr_send 0 "2"] ∧
    never_ahead none false (main false [{ poll := Poll.fail, interrupted := false }]).2 = false ∧
    one_in_flight none (main false [{ poll := Poll.fail, interrupted := false }]).2 = false := by
  decide

/-- C6, amended: in every run in which a failed poll only occurs with
`zctx_interrupted` set, for every sequence of replies and timeouts, no request
is sent before the one before it has been matched by a reply with its number,
and at no point are two different payloads unacknowledged. -/
theorem C6_request_ordering (b : Bool) (evs : List Ev)
    (h : ∀ e ∈ evs, e.poll = Poll.fail → e.interrupted = true) :
    one_in_flight none (main b evs).2 = true ∧
    never_ahead none false (main b evs).2 = true := by
  have h1 : one_in_flight none (main b evs).2 = true := by
    have hl := loop_head_flight b startup.1
    simp only [main, one_in_flight_append, pending_after_append]
    have hs : one_in_flight none startup.2 = true ∧ pending_after none startup.2 = none := by
      decide
    rw [hs.1, hs.2, hl.1]
    exact run_from_flight evs _ _ hl.2 h
  exact ⟨h1, never_ahead_of_one_in_flight _ _ _ h1⟩

/-- C6, amended, witness: a timeout, a stale reply, the matching reply, then a
failed poll with the interruption flag set. -/
theorem C6_request_ordering_witness :
    (∀ e ∈ [({ poll := Poll.timeout, interrupted := false } : Ev),
            { poll := Poll.reply "7", interrupted := false },
            { poll := Poll.reply "1", interrupted := false },
            { poll := Poll.fail, interrupted := true }],
      e.poll = Poll.fail → e.interrupted = true) ∧
    payloads (main false [{ poll := Poll.timeout, interrupted := false },
            { poll := Poll.reply "7", interrupted := false },
            { poll := Poll.reply "1", interrupted := false },
            { poll := Poll.fail, interrupted := true }]).2 = ["1", "1", "2"] ∧
    one_in_flight none (main false [{ poll := Poll.timeout, interrupted := false },
            { poll := Poll.reply "7", interrupted := false },
            { poll := Poll.reply "1", interrupted := false },
            { poll := Poll.fail, interrupted := true }]).2 = true :=
  ⟨by decide, by decide,
   (C6_request_ordering false [{ poll := Poll.timeout, interrupted := false },
            { poll := Poll.reply "7", interrupted := false },
            { poll := Poll.reply "1", interrupted := false },
            { poll := Poll.fail, interrupted := true }] (by decide)).1⟩

/-! ## C7, C8: a failed poll -/

/-- C7, as it fails: request 1 is outstanding, the poll fails and
`zctx_interrupted` is not set.  The client does not wait for request 1 again:
`sequence` becomes 2 and "2" is passed to `zstr_send`. -/
theorem C7_counterexample :
    outstanding (awaiting_state 0 0 1 1) 1 ∧
    step { poll := Poll.fail, interrupted := false } (awaiting_state 0 0 1 1)
      = (awaiting_state 0 0 1 2, [Effect.zmq_poll 0 1000, Effect.zstr_send 0 "2"]) := by
  decide

/-- C7, amended: when `zmq_poll` fails while request `k` is outstanding and
`zctx_interrupted` is not set, the inner loop is left by `break` with nothing
changed, and the outer loop sends the next request: `sequence` becomes
`k + 1`, its decimal string is passed to `zstr_send` on the same socket, and
request `k + 1` is outstanding (`k < 999999999`, so that it fits the buffer). -/
theorem C7_poll_failure (st : State) (k : Int) (h : outstanding st k) (hk : k < 999999999) :
    await_step Poll.fail st
      = { st := st, effects := [Effect.zmq_poll st.client REQUEST_TIMEOUT], broke := true } ∧
    step { poll := Poll.fail, interrupted := false } st
      = ({ st with sequence := k + 1, request := sprintf_d (k + 1) },
         [Effect.zmq_poll st.client REQUEST_TIMEOUT,
          Effect.zstr_send st.client (sprintf_d (k + 1))]) ∧
    outstanding (step { poll := Poll.fail, interrupted := false } st).1 (k + 1) := by
  obtain ⟨h1, h2, h3, h4, h5⟩ := h
  have hr : -99999999 ≤ k ∧ k ≤ 999999999 := by
    rw [h4] at h5
    exact (sprintf_d_fits_iff k).1 h5
  have hfit : (sprintf_d (k + 1)).length + 1 ≤ REQUEST_SIZE :=
    (sprintf_d_fits_iff (k + 1)).2 ⟨by omega, by omega⟩
  have hmax : k + 1 ≤ INT_MAX := by simp only [INT_MAX]; omega
  have hs : step { poll := Poll.fail, interrupted := false } st
      = ({ st with sequence := k + 1, request := sprintf_d (k + 1) },
         [Effect.zmq_poll st.client REQUEST_TIMEOUT,
          Effect.zstr_send st.client (sprintf_d (k + 1))]) := by
    simp [step, h1, await_step, loop_head, send_request, h3, hfit, hmax, h2]
  refine ⟨rfl, hs, ?_⟩
  rw [hs]
  exact ⟨h1, h2, rfl, rfl, hfit⟩

/-- C7, amended, witness: request 1 is outstanding. -/
theorem C7_poll_failure_witness :
    outstanding (awaiting_state 0 0 1 1) 1 ∧
    step { poll := Poll.fail, interrupted := false } (awaiting_state 0 0 1 1)
      = ({ awaiting_state 0 0 1 1 with sequence := 1 + 1, request := sprintf_d (1 + 1) },
         [Effect.zmq_poll (awaiting_state 0 0 1 1).client REQUEST_TIMEOUT,
          Effect.zstr_send (awaiting_state 0 0 1 1).client (sprintf_d (1 + 1))]) :=
  ⟨by decide, (C7_poll_failure (awaiting_state 0 0 1 1) 1 (by decide) (by decide)).2.1⟩

/-- C8: in every state, a step whose poll fails performs no failover, whatever
the interruption flag: the pass through the inner loop only polls and leaves by
`break` with the state as it was; in the whole step no socket is destroyed,
created or connected, there is no settle sleep, `server_nbr` and `client` are
unchanged, and whatever is sent goes to the socket polled, not to a new one. -/
theorem C8_failed_wait_no_failover (st : State) (b : Bool) :
    await_step Poll.fail st
      = { st := st, effects := [Effect.zmq_poll st.client REQUEST_TIMEOUT], broke := true } ∧
    (step { poll := Poll.fail, interrupted := b } st).1.server_nbr = st.server_nbr ∧
    (step { poll := Poll.fail, interrupted := b } st).1.client = st.client ∧
    (step { poll := Poll.fail, interrupted := b } st).1.created = st.created ∧
    (∀ x ∈ (step { poll := Poll.fail, interrupted := b } st).2, is_failover_effect x = false) ∧
    destroyed (step { poll := Poll.fail, interrupted := b } st).2 = [] ∧
    connects (step { poll := Poll.fail, interrupted := b } st).2 = [] ∧
    (∀ x ∈ sends (step { poll := Poll.fail, interrupted := b } st).2, x.1 = st.client) := by
  refine ⟨rfl, ?_⟩
  by_cases hpc : st.pc = Pc.awaiting
  · cases b with
    | true =>
      simp [step, hpc, await_step, loop_head, is_failover_effect, destroyed, connects, sends]
    | false =>
      by_cases hc : st.sequence + 1 ≤ INT_MAX ∧
          (sprintf_d (st.sequence + 1)).length + 1 ≤ REQUEST_SIZE
      · simp [step, hpc, await_step, loop_head, send_request, hc, is_failover_effect, destroyed,
          connects, sends]
      · simp [step, hpc, await_step, loop_head, send_request, hc, is_failover_effect, destroyed,
          connects, sends]
  · simp [step, hpc, destroyed, connects, sends]

/-! ## C9: the sequence counter -/

/-- A reply that is not accepted and a timeout leave `sequence` as it is. -/
theorem step_sequence_unchanged (st : State) (e : Ev) (hf : e.poll ≠ Poll.fail)
    (hx : st.expect_reply = true) (hm : matches_outstanding st e = false) :
    (step e st).1.sequence = st.sequence := by
  by_cases hpc : st.pc = Pc.awaiting
  · cases hp : e.poll with
    | fail => exact absurd hp hf
    | timeout => rw [step_timeout st e hpc hx hp]; rfl
    | reply r =>
      simp only [matches_outstanding, hp, decide_eq_false_iff_not] at hm
      cases hr : atoi r with
      | none => simp [step, hpc, hp, await_step, hr]
      | some v =>
        have hv : v ≠ st.sequence := by
          intro hv
          exact hm (by rw [hr, hv])
        simp [step, hpc, hp, await_step_stale st r v hr hv, hx]
  · simp [step, hpc]

/-- Along a run without failed polls that is still waiting at its end,
`sequence` has grown by the number of replies accepted. -/
theorem run_from_sequence : ∀ (evs : List Ev) (st : State), st.expect_reply = true →
    (∀ e ∈ evs, e.poll ≠ Poll.fail) → (run_from st evs).1.pc = Pc.awaiting →
    (run_from st evs).1.sequence = st.sequence + matched_count st evs := by
  intro evs
  induction evs with
  | nil => intro st _ _ _; simp [run_from, matched_count]
  | cons e es ih =>
    intro st hx hf hend
    have hfe := hf e (List.mem_cons_self _ _)
    have hfs : ∀ x ∈ es, x.poll ≠ Poll.fail := fun x hx => hf x (List.mem_cons_of_mem _ hx)
    simp only [run_from] at hend ⊢
    have hpc' : (step e st).1.pc = Pc.awaiting := by
      by_contra hne
      rw [run_from_stuck es _ hne] at hend
      exact hne hend
    have hpc : st.pc = Pc.awaiting := by
      by_contra hne
      have : step e st = (st, []) := by simp [step, hne]
      rw [this] at hpc'
      exact hne hpc'
    cases hm : matches_outstanding st e with
    | true =>
      obtain ⟨r, _, _, hs⟩ := step_matched st e hpc hm
      have hi : e.interrupted = false := by
        cases hi : e.interrupted with
        | false => rfl
        | true => rw [hs] at hpc'; simp [loop_head, hi] at hpc'
      rw [hs] at hpc'
      simp only [loop_head, hi, Bool.false_eq_true, if_false] at hs hpc'
      obtain ⟨q1, _, q3, _⟩ := send_request_sequence _ hpc'
      have hx' : (step e st).1.expect_reply = true := by
        rw [hs]
        exact q3
      rw [ih (step e st).1 hx' hfs hend]
      simp only [matched_count, hpc, hm, and_self, if_true]
      rw [hs]
      simp only [q1]
      push_cast
      ring
    | false =>
      have q := step_sequence_unchanged st e hfe hx hm
      have hx' : (step e st).1.expect_reply = true := by
        cases hp : e.poll with
        | fail => exact absurd hp hfe
        | timeout => rw [step_timeout st e hpc hx hp]; exact hx
        | reply r =>
          simp only [matches_outstanding, hp, decide_eq_false_iff_not] at hm
          cases hr : atoi r with
          | none => simp [step, hpc, hp, await_step, hr, hx]
          | some v =>
            have hv : v ≠ st.sequence := by
              intro hv
              exact hm (by rw [hr, hv])
            simp [step, hpc, hp, await_step_stale st r v hr hv, hx]
      rw [ih (step e st).1 hx' hfs hend, q]
      simp [matched_count, hm]

/-- C9: over every sequence of replies and timeouts (no failed poll) after which
`main` is waiting for a reply, `sequence` is one more than the number m of
replies accepted so far, m + 1; a reply that is not accepted and a timeout
leave `sequence` unchanged, and each new request adds exactly 1 to it. -/
theorem C9_sequence_counter (evs : List Ev) (hf : ∀ e ∈ evs, e.poll ≠ Poll.fail)
    (hend : (main false evs).1.pc = Pc.awaiting) :
    (main false evs).1.sequence = matched_count (loop_head false startup.1).1 evs + 1 ∧
    (∀ (st : State) (e : Ev), st.expect_reply = true → e.poll ≠ Poll.fail →
      matches_outstanding st e = false → (step e st).1.sequence = st.sequence) ∧
    (∀ st : State, (send_request st).1.pc = Pc.awaiting →
      (send_request st).1.sequence = st.sequence + 1) := by
  have h0 : loop_head false startup.1 =
      (awaiting_state 0 0 1 1, [Effect.zstr_send 0 (sprintf_d 1)]) := by decide
  refine ⟨?_, fun st e hx he hm => step_sequence_unchanged st e he hx hm,
    fun st h => (send_request_sequence st h).1⟩
  have e1 : (main false evs).1 = (run_from (awaiting_state 0 0 1 1) evs).1 := by
    simp [main, h0]
  rw [e1] at hend ⊢
  rw [run_from_sequence evs _ rfl hf hend, h0]
  simp only [awaiting_state]
  ring

/-- C9, witness: a timeout, a stale reply, two accepted replies. -/
theorem C9_sequence_counter_witness :
    (∀ e ∈ [({ poll := Poll.timeout, interrupted := false } : Ev),
            { poll := Poll.reply "5", interrupted := false },
            { poll := Poll.reply "1", interrupted := false },
            { poll := Poll.reply "2", interrupted := false }], e.poll ≠ Poll.fail) ∧
    matched_count (loop_head false startup.1).1
      [{ poll := Poll.timeout, interrupted := false },
       { poll := Poll.reply "5", interrupted := false },
       { poll := Poll.reply "1", interrupted := false },
       { poll := Poll.reply "2", interrupted := false }] = 2 ∧
    (main false [{ poll := Poll.timeout, interrupted := false },
                 { poll := Poll.reply "5", interrupted := false },
                 { poll := Poll.reply "1", interrupted := false },
                 { poll := Poll.reply "2", interrupted := false }]).1.sequence
      = matched_count (loop_head false startup.1).1
          [{ poll := Poll.timeout, interrupted := false },
           { poll := Poll.reply "5", interrupted := false },
           { poll := Poll.reply "1", interrupted := false },
           { poll := Poll.reply "2", interrupted := false }] + 1 :=
  ⟨by decide, by decide,
   (C9_sequence_counter [{ poll := Poll.timeout, interrupted := false },
       { poll := Poll.reply "5", interrupted := false },
       { poll := Poll.reply "1", interrupted := false },
       { poll := Poll.reply "2", interrupted := false }] (by decide) (by decide)).1⟩

/-! ## C10: the socket in use is connected to the active server -/

/-- The discipline checked over two traces in a row. -/
theorem track_append (a b : List Effect) : ∀ t : Sockets,
    track t (a ++ b) = (track t a).bind (fun u => track u b) := by
  induction a with
  | nil => intro t; simp [track]
  | cons x xs ih =>
    intro t
    cases x <;> simp only [List.cons_append, track, List.append_eq, ih] <;>
      (try split) <;> simp [ih]

/-- Under the invariant the socket in `client` can be used. -/
theorem usable_of_bound_inv (st : State) (t : Sockets) (h : bound_inv st t) :
    usable t st.client = true := by
  obtain ⟨h1, h2, _⟩ := h
  simp [usable, h1, h2]

/-- The loop head keeps to the discipline and leaves the sockets as they are. -/
theorem loop_head_track (b : Bool) (st : State) (t : Sockets) (h : bound_inv st t) :
    track t (loop_head b st).2 = some t ∧ bound_inv (loop_head b st).1 t := by
  have hu := usable_of_bound_inv st t h
  cases b with
  | true => exact ⟨by simp [loop_head, track], h⟩
  | false =>
    simp only [loop_head, Bool.false_eq_true, if_false, send_request]
    split
    · exact ⟨by simp [track, hu], h⟩
    · exact ⟨by simp [track], h⟩

/-- A pass through the inner loop keeps to the discipline; after a failover the
new socket is the one in `client`, connected to the server now active. -/
theorem await_step_track (o : Poll) (st : State) (t : Sockets) (h : bound_inv st t) :
    ∃ u, track t (await_step o st).effects = some u ∧ bound_inv (await_step o st).st u := by
  have hu := usable_of_bound_inv st t h
  cases o with
  | fail => exact ⟨t, by simp [await_step, track, hu], h⟩
  | reply r =>
    cases hr : atoi r with
    | none => exact ⟨t, by simp [await_step, hr, track, hu], by simpa [await_step, hr] using h⟩
    | some v =>
      by_cases hv : v = st.sequence
      · subst hv
        rw [await_step_matched st r hr]
        exact ⟨t, by simp [track, hu], h⟩
      · rw [await_step_stale st r v hr hv]
        exact ⟨t, by simp [track, hu], h⟩
  | timeout =>
    obtain ⟨h1, h2, h3, h4, h5⟩ := h
    have hnew : st.created ∉ t.made := fun hm => Nat.lt_irrefl _ (h4 _ hm)
    have hcl : st.created ∉ t.closed := fun hm => Nat.lt_irrefl _ (h5 _ hm)
    have hne : ¬ st.created = st.client := by omega
    refine ⟨{ current := some (st.created, some (server (swap st.server_nbr))),
              closed := st.client :: t.closed, made := st.created :: t.made }, ?_, ?_⟩
    · simp [await_step, track, usable, h1, h2, hnew, hcl, hne]
    · refine ⟨rfl, ?_, ?_, ?_, ?_⟩
      · simp only [await_step, List.mem_cons, not_or]
        exact ⟨hne, hcl⟩
      · simp [await_step]
      · intro s hs
        simp only [await_step, List.mem_cons] at hs ⊢
        rcases hs with rfl | hs
        · omega
        · exact Nat.lt_succ_of_lt (h4 s hs)
      · intro s hs
        simp only [await_step, List.mem_cons] at hs ⊢
        rcases hs with rfl | hs
        · omega
        · exact Nat.lt_succ_of_lt (h5 s hs)

/-- One step keeps to the discipline and keeps the invariant. -/
theorem step_track (e : Ev) (st : State) (t : Sockets) (h : bound_inv st t) :
    ∃ u, track t (step e st).2 = some u ∧ bound_inv (step e st).1 u := by
  unfold step
  by_cases hpc : st.pc = Pc.awaiting
  · rw [if_pos hpc]
    obtain ⟨u, hu1, hu2⟩ := await_step_track e.poll st t h
    dsimp only
    split
    · have hl := loop_head_track e.interrupted _ u hu2
      exact ⟨u, by simp [track_append, hu1, hl.1], hl.2⟩
    · exact ⟨u, hu1, hu2⟩
  · rw [if_neg hpc]
    exact ⟨t, rfl, h⟩

/-- A run keeps to the discipline and keeps the invariant. -/
theorem run_from_track : ∀ (evs : List Ev) (st : State) (t : Sockets), bound_inv st t →
    ∃ u, track t (run_from st evs).2 = some u ∧ bound_inv (run_from st evs).1 u := by
  intro evs
  induction evs with
  | nil => intro st t h; exact ⟨t, rfl, h⟩
  | cons e es ih =>
    intro st t h
    obtain ⟨u, hu1, hu2⟩ := step_track e st t h
    obtain ⟨w, hw1, hw2⟩ := ih (step e st).1 u hu2
    exact ⟨w, by simp [run_from, track_append, hu1, hw1], hw2⟩

/-- C10: in every run of `main` the first socket is connected to `server [0]`;
every `zstr_send`, `zmq_poll` and `zstr_recv` is called on the socket created
last, which has been connected once and has not been destroyed (so after a
failover on the new socket, never on the destroyed one); `zsocket_connect` is
called once per socket; and at every point between two polls the socket in
`client` is the one connected to `server [server_nbr]`. -/
theorem C10_connection_binding (b : Bool) (evs : List Ev) :
    (connects (main b evs).2).head? = some (0, server 0) ∧
    ∃ t, track { current := none, closed := [], made := [] } (main b evs).2 = some t ∧
      t.current = some ((main b evs).1.client, some (server (main b evs).1.server_nbr)) ∧
      (main b evs).1.client ∉ t.closed := by
  constructor
  · simp [main, startup, connects, connects_append]
  · have h0 : track { current := none, closed := [], made := [] } startup.2
        = some { current := some (0, some (server 0)), closed := [], made := [0] } := by
      decide
    have hi : bound_inv startup.1 { current := some (0, some (server 0)), closed := [], made := [0] } := by
      simp [bound_inv, startup]
    have hl := loop_head_track b startup.1 _ hi
    obtain ⟨u, hu1, hu2⟩ := run_from_track evs (loop_head b startup.1).1 _ hl.2
    refine ⟨u, ?_, hu2.1, hu2.2.1⟩
    simp [main, track_append, h0, hl.1, hu1]

/-! ## C11: every socket is closed once -/

/-- Opening and closing over two traces in a row. -/
theorem lifecycle_append (a b : List Effect) : ∀ l : Life,
    lifecycle l (a ++ b) = (lifecycle l a).bind (fun u => lifecycle u b) := by
  induction a with
  | nil => intro l; simp [lifecycle]
  | cons x xs ih =>
    intro l
    cases x <;> simp only [List.cons_append, lifecycle, List.append_eq, ih] <;>
      (try split) <;> simp [ih]

/-- The sockets created over two traces in a row. -/
theorem news_append (a b : List Effect) : news (a ++ b) = news a ++ news b := by
  induction a with
  | nil => rfl
  | cons x xs ih => cases x <;> simp [news, ih]

/-- The loop head keeps the socket open when it sends the next request, and
closes it with the context when the client is interrupted. -/
theorem loop_head_life (b : Bool) (st : State) (l : Life) (h : life_inv st l)
    (hpc : st.pc ≠ Pc.returned) :
    ∃ u, lifecycle l (loop_head b st).2 = some u ∧ life_inv (loop_head b st).1 u ∧
      news (loop_head b st).2 = [] ∧ (loop_head b st).1.created = st.created := by
  obtain ⟨h1, h2, _⟩ := h
  obtain ⟨h3, h4⟩ := h2 hpc
  cases b with
  | true =>
    refine ⟨{ live := [], closed := l.closed ++ l.live }, by simp [loop_head, lifecycle], ?_,
      by simp [loop_head, news], by simp [loop_head]⟩
    refine ⟨h1, ?_, ?_⟩
    · intro hx; simp [loop_head] at hx
    · intro _
      simp [loop_head, h3, h4, h1, List.range_succ]
  | false =>
    simp only [loop_head, Bool.false_eq_true, if_false, send_request]
    split
    · exact ⟨l, by simp [lifecycle, h3], ⟨h1, fun _ => ⟨h3, h4⟩, fun hx => by simp at hx⟩,
        by simp [news], rfl⟩
    · exact ⟨l, by simp [lifecycle], ⟨h1, fun _ => ⟨h3, h4⟩, fun hx => by simp at hx⟩,
        by simp [news], rfl⟩

/-- A pass through the inner loop uses the open socket only; a failover closes
it and opens the next one. -/
theorem await_step_life (o : Poll) (st : State) (l : Life) (h : life_inv st l)
    (hpc : st.pc = Pc.awaiting) :
    ∃ u, lifecycle l (await_step o st).effects = some u ∧ life_inv (await_step o st).st u ∧
      (await_step o st).st.pc ≠ Pc.returned ∧
      news (await_step o st).effects = List.range' st.created
        ((await_step o st).st.created - st.created) ∧
      st.created ≤ (await_step o st).st.created := by
  obtain ⟨h1, h2, _⟩ := h
  obtain ⟨h3, h4⟩ := h2 (by rw [hpc]; decide)
  have keep : life_inv st l := ⟨h1, fun _ => ⟨h3, h4⟩, fun hx => by rw [hpc] at hx; cases hx⟩
  cases o with
  | fail =>
    exact ⟨l, by simp [await_step, lifecycle, h3], keep, by simp [await_step, hpc],
      by simp [await_step, news], by simp [await_step]⟩
  | reply r =>
    cases hr : atoi r with
    | none =>
      refine ⟨l, by simp [await_step, hr, lifecycle, h3], ?_, by simp [await_step, hr],
        by simp [await_step, hr, news], by simp [await_step, hr]⟩
      simp only [await_step, hr]
      exact ⟨h1, fun _ => ⟨h3, h4⟩, fun hx => by simp at hx⟩
    | some v =>
      by_cases hv : v = st.sequence
      · subst hv
        rw [await_step_matched st r hr]
        exact ⟨l, by simp [lifecycle, h3],
          ⟨h1, fun _ => ⟨h3, h4⟩, fun hx => by simp [hpc] at hx⟩, by simp [hpc],
          by simp [news], by simp⟩
      · rw [await_step_stale st r v hr hv]
        exact ⟨l, by simp [lifecycle, h3], keep, by simp [hpc], by simp [news], by simp⟩
  | timeout =>
    have hnot : st.created ∉ List.range (st.client + 1) := by simp [h1]
    refine ⟨{ live := [st.created], closed := List.range (st.client + 1) }, ?_, ?_,
      by simp [await_step, hpc], by simp [await_step, news], by simp [await_step]⟩
    · simp [await_step, lifecycle, h3, h4, List.range_succ, h1]
    · refine ⟨by simp [await_step], ?_, ?_⟩
      · intro _
        simp [await_step, h1]
      · intro hx
        simp [await_step, hpc] at hx

/-- One step keeps the account of open and closed sockets. -/
theorem step_life (e : Ev) (st : State) (l : Life) (h : life_inv st l) :
    ∃ u, lifecycle l (step e st).2 = some u ∧ life_inv (step e st).1 u ∧
      news (step e st).2 = List.range' st.created ((step e st).1.created - st.created) ∧
      st.created ≤ (step e st).1.created := by
  unfold step
  by_cases hpc : st.pc = Pc.awaiting
  · rw [if_pos hpc]
    obtain ⟨u, hu1, hu2, hu3, hu4, hu5⟩ := await_step_life e.poll st l h hpc
    dsimp only
    split
    · obtain ⟨w, hw1, hw2, hw3, hw4⟩ := loop_head_life e.interrupted _ u hu2 hu3
      exact ⟨w, by simp [lifecycle_append, hu1, hw1], hw2,
        by rw [news_append, hu4, hw3, hw4]; simp, by rw [hw4]; exact hu5⟩
    · exact ⟨u, hu1, hu2, hu4, hu5⟩
  · rw [if_neg hpc]
    exact ⟨l, rfl, h, by simp [news], Nat.le_refl _⟩

/-- A run keeps the account of open and closed sockets, and creates the sockets
`created`, `created + 1`, ... in this order. -/
theorem run_from_life : ∀ (evs : List Ev) (st : State) (l : Life), life_inv st l →
    ∃ u, lifecycle l (run_from st evs).2 = some u ∧ life_inv (run_from st evs).1 u ∧
      news (run_from st evs).2 = List.range' st.created
        ((run_from st evs).1.created - st.created) ∧
      st.created ≤ (run_from st evs).1.created := by
  intro evs
  induction evs with
  | nil => intro st l h; exact ⟨l, rfl, h, by simp [run_from, news], Nat.le_refl _⟩
  | cons e es ih =>
    intro st l h
    obtain ⟨u, hu1, hu2, hu3, hu4⟩ := step_life e st l h
    obtain ⟨w, hw1, hw2, hw3, hw4⟩ := ih (step e st).1 u hu2
    refine ⟨w, by simp [run_from, lifecycle_append, hu1, hw1], hw2, ?_, Nat.le_trans hu4 hw4⟩
    simp only [run_from, news_append, hu3, hw3]
    have : (run_from (step e st).1 es).1.created - st.created
        = ((run_from (step e st).1 es).1.created - (step e st).1.created)
          + ((step e st).1.created - st.created) := by omega
    rw [this, ← List.range'_append_1 st.created ((step e st).1.created - st.created)
      ((run_from (step e st).1 es).1.created - (step e st).1.created)]
    congr 2
    omega

/-- C11: in every run of `main` no socket is opened twice, closed twice, or
used while it is not open; while `main` has not returned exactly one socket is
open, the one in `client`; and when the run ends by cancellation (`main` has
returned) the sockets created, `0`, `1`, ..., have each been closed exactly
once, in that order: each failed socket by `zsocket_destroy` at its failover and
the last one by `zctx_destroy`. -/
theorem C11_open_close_pairing (b : Bool) (evs : List Ev) :
    ∃ l, lifecycle { live := [], closed := [] } (main b evs).2 = some l ∧
      news (main b evs).2 = List.range (main b evs).1.created ∧
      ((main b evs).1.pc ≠ Pc.returned → l.live = [(main b evs).1.client]) ∧
      ((main b evs).1.pc = Pc.returned →
        l.live = [] ∧ l.closed = news (main b evs).2 ∧ l.closed.Nodup) := by
  have h0 : lifecycle { live := [], closed := [] } startup.2
      = some { live := [0], closed := [] } := by decide
  have hi : life_inv startup.1 { live := [0], closed := [] } := by
    refine ⟨rfl, fun _ => ⟨rfl, rfl⟩, fun hx => ?_⟩
    simp [startup] at hx
  obtain ⟨u, hu1, hu2, hu3, hu4⟩ := loop_head_life b startup.1 _ hi (by simp [startup])
  obtain ⟨w, hw1, hw2, hw3, hw4⟩ := run_from_life evs (loop_head b startup.1).1 u hu2
  have hn : news (main b evs).2 = List.range (main b evs).1.created := by
    simp only [main, news_append, hu3, hw3, hu4, List.append_nil]
    have hc : startup.1.created = 1 := rfl
    rw [hu4, hc] at hw4
    rw [hc, List.range_eq_range']
    have : (run_from (loop_head b startup.1).1 evs).1.created
        = ((run_from (loop_head b startup.1).1 evs).1.created - 1) + 1 := by omega
    conv_rhs => rw [this, ← List.range'_append_1 0 1 _]
    simp [startup, news]
  refine ⟨w, by simp [main, lifecycle_append, h0, hu1, hw1], hn, ?_, ?_⟩
  · intro hpc
    exact (hw2.2.1 hpc).1
  · intro hpc
    obtain ⟨q1, q2⟩ := hw2.2.2 hpc
    refine ⟨q1, ?_, ?_⟩
    · rw [hn, q2]
      rfl
    · rw [q2]
      exact List.nodup_range _

/-! ## C12: the loop is left on cancellation only -/

/-- A step returns from `main` only when it reads `zctx_interrupted` set. -/
theorem step_returned (e : Ev) (st : State) (h : (step e st).1.pc = Pc.returned) :
    st.pc = Pc.returned ∨ e.interrupted = true := by
  unfold step at h
  by_cases hpc : st.pc = Pc.awaiting
  · rw [if_pos hpc] at h
    dsimp only at h
    split at h
    · rename_i hc
      cases hi : e.interrupted with
      | true => exact Or.inr rfl
      | false =>
        simp only [loop_head, hi, Bool.false_eq_true, if_false, send_request] at h
        split at h
        · simp at h
        · simp at h
    · rename_i hc
      cases hp : e.poll with
      | fail => simp [await_step, hp, hpc] at hc
      | timeout => simp [await_step, hp, hpc] at h
      | reply r =>
        cases hr : atoi r with
        | none => simp [await_step, hp, hr] at h
        | some v =>
          by_cases hv : v = st.sequence
          · simp [await_step, hp, hr, hv, hpc] at hc
          · simp [await_step, hp, hr, hv, hpc] at h
  · rw [if_neg hpc] at h
    exact Or.inl h

/-- A run returns from `main` only after an event with `zctx_interrupted` set. -/
theorem run_from_returned : ∀ (evs : List Ev) (st : State),
    (run_from st evs).1.pc = Pc.returned →
    st.pc = Pc.returned ∨ ∃ e ∈ evs, e.interrupted = true := by
  intro evs
  induction evs with
  | nil => intro st h; exact Or.inl h
  | cons e es ih =>
    intro st h
    rcases ih (step e st).1 h with h1 | ⟨x, hx, hi⟩
    · rcases step_returned e st h1 with h2 | h2
      · exact Or.inl h2
      · exact Or.inr ⟨e, List.mem_cons_self _ _, h2⟩
    · exact Or.inr ⟨x, List.mem_cons_of_mem _ hx, hi⟩

/-- Timeouts and stale replies keep the client in the inner loop, whatever the
interruption flag, and the context is not destroyed. -/
theorem run_from_waiting : ∀ (evs : List Ev) (st : State), st.pc = Pc.awaiting →
    st.expect_reply = true →
    (∀ e ∈ evs, e.poll = Poll.timeout ∨
      ∃ r v, e.poll = Poll.reply r ∧ atoi r = some v ∧ v ≠ st.sequence) →
    (run_from st evs).1.pc = Pc.awaiting ∧ (run_from st evs).1.sequence = st.sequence ∧
    Effect.zctx_destroy ∉ (run_from st evs).2 := by
  intro evs
  induction evs with
  | nil => intro st h _ _; exact ⟨h, rfl, by simp [run_from]⟩
  | cons e es ih =>
    intro st hpc hx h
    have hrest : ∀ x ∈ es, x.poll = Poll.timeout ∨
        ∃ r v, x.poll = Poll.reply r ∧ atoi r = some v ∧ v ≠ st.sequence :=
      fun x hm => h x (List.mem_cons_of_mem _ hm)
    rcases h e (List.mem_cons_self _ _) with ht | ⟨r, v, hr, hv, hne⟩
    · have hs := step_timeout st e hpc hx ht
      obtain ⟨i1, i2, i3⟩ := ih (step e st).1 (by rw [hs]; exact hpc) (by rw [hs]; exact hx)
        (by rw [hs]; exact hrest)
      refine ⟨i1, by simp only [run_from]; rw [i2, hs]; rfl, ?_⟩
      simp only [run_from, List.mem_append, not_or]
      refine ⟨?_, i3⟩
      rw [hs]
      simp [await_step]
    · have hs : step e st = (st,
          [Effect.zmq_poll st.client REQUEST_TIMEOUT, Effect.zstr_recv st.client r,
           Effect.printf ("E: bad reply from server: " ++ r ++ "\n")]) := by
        simp [step, hpc, hr, await_step_stale st r v hv hne, hx]
      obtain ⟨i1, i2, i3⟩ := ih (step e st).1 (by rw [hs]; exact hpc) (by rw [hs]; exact hx)
        (by rw [hs]; exact hrest)
      refine ⟨i1, by simp only [run_from]; rw [i2, hs], ?_⟩
      simp only [run_from, List.mem_append, not_or]
      refine ⟨?_, i3⟩
      rw [hs]
      simp

/-- What a step does to `sequence` and to the context, in every state: the
counter grows by at most one, and without the interruption flag the context is
not destroyed. -/
theorem step_bounds (e : Ev) (st : State) :
    (step e st).1.sequence ≤ st.sequence + 1 ∧
    (e.interrupted = false → Effect.zctx_destroy ∉ (step e st).2) := by
  unfold step
  by_cases hpc : st.pc = Pc.awaiting
  · rw [if_pos hpc]
    have ha : (await_step e.poll st).st.sequence = st.sequence ∧
        Effect.zctx_destroy ∉ (await_step e.poll st).effects := by
      cases hp : e.poll with
      | fail => simp [await_step]
      | timeout => simp [await_step]
      | reply r =>
        cases hr : atoi r with
        | none => simp [await_step, hr]
        | some v => by_cases hv : v = st.sequence <;> simp [await_step, hr, hv]
    have hl : ∀ (b : Bool) (s : State), (loop_head b s).1.sequence ≤ s.sequence + 1 ∧
        (b = false → Effect.zctx_destroy ∉ (loop_head b s).2) := by
      intro b s
      cases b with
      | true => simp [loop_head]
      | false =>
        simp only [loop_head, Bool.false_eq_true, if_false, send_request]
        split <;> simp
    dsimp only
    split
    · obtain ⟨l1, l2⟩ := hl e.interrupted (await_step e.poll st).st
      refine ⟨by rw [ha.1] at l1; exact l1, fun hi => ?_⟩
      simp only [List.mem_append, not_or]
      exact ⟨ha.2, l2 hi⟩
    · exact ⟨by rw [ha.1]; omega, fun _ => ha.2⟩
  · rw [if_neg hpc]
    exact ⟨by simp only; omega, by simp⟩

/-- The whole table of one step taken while the client waits for the reply to
a request that fits the buffer: it returns exactly when the inner loop is left
with the interruption flag set; it is undefined exactly when the reply holds a
numeral `atoi` cannot represent, or the inner loop is left without the flag
while `sequence` is 999999999, so that the next request overruns the buffer;
in every other case the client waits on, again for a request that fits. -/
theorem step_table (e : Ev) (st : State) (hpc : st.pc = Pc.awaiting)
    (hx : st.expect_reply = true) (h1 : 1 ≤ st.sequence) (h2 : st.sequence ≤ 999999999) :
    ((step e st).1.pc = Pc.returned ↔
      leaves_inner_loop st e = true ∧ e.interrupted = true) ∧
    ((step e st).1.pc = Pc.undefined ↔
      (∃ r, e.poll = Poll.reply r ∧ atoi r = none) ∨
      (leaves_inner_loop st e = true ∧ e.interrupted = false ∧ st.sequence = 999999999)) ∧
    ((step e st).1.pc = Pc.returned → (step e st).2.getLast? = some Effect.zctx_destroy) ∧
    count_inv (step e st).1 := by
  have hsend : ∀ s : State, s.pc = Pc.awaiting → s.sequence = st.sequence →
      ((send_request s).1.pc = Pc.undefined ↔ st.sequence = 999999999) ∧
      ((send_request s).1.pc ≠ Pc.returned) ∧ count_inv (send_request s).1 := by
    intro s hs hq
    unfold send_request
    by_cases hc : s.sequence + 1 ≤ INT_MAX ∧ (sprintf_d (s.sequence + 1)).length + 1 ≤ REQUEST_SIZE
    · have hr := (sprintf_d_fits_iff _).1 hc.2
      rw [if_pos hc]
      refine ⟨by simp; omega, by simp, fun _ => ⟨rfl, ?_, ?_⟩⟩
      · simp only; omega
      · simp only; omega
    · rw [if_neg hc]
      have hmax : s.sequence + 1 ≤ INT_MAX := by simp only [INT_MAX]; omega
      have hnf : ¬ (sprintf_d (s.sequence + 1)).length + 1 ≤ REQUEST_SIZE := fun hf => hc ⟨hmax, hf⟩
      rw [sprintf_d_fits_iff] at hnf
      refine ⟨by simp; omega, by simp, fun hx => by simp at hx⟩
  have hhead : ∀ s : State, s.pc = Pc.awaiting → s.sequence = st.sequence →
      ((loop_head e.interrupted s).1.pc = Pc.returned ↔ e.interrupted = true) ∧
      ((loop_head e.interrupted s).1.pc = Pc.undefined ↔
        e.interrupted = false ∧ st.sequence = 999999999) ∧
      ((loop_head e.interrupted s).1.pc = Pc.returned →
        ∀ pre : List Effect, (pre ++ (loop_head e.interrupted s).2).getLast?
          = some Effect.zctx_destroy) ∧
      count_inv (loop_head e.interrupted s).1 := by
    intro s hs hq
    obtain ⟨s1, s2, s3⟩ := hsend s hs hq
    cases hi : e.interrupted with
    | true =>
      refine ⟨by simp [loop_head], by simp [loop_head], ?_, fun hx => by simp [loop_head] at hx⟩
      intro _ pre
      simp [loop_head]
    | false =>
      simp only [loop_head, Bool.false_eq_true, if_false]
      refine ⟨by simpa using s2, by simpa using s1, fun hx => absurd hx s2, s3⟩
  have keep : count_inv st := fun _ => ⟨hx, h1, h2⟩
  cases hp : e.poll with
  | fail =>
    have hs : step e st = ((loop_head e.interrupted st).1,
        [Effect.zmq_poll st.client REQUEST_TIMEOUT] ++ (loop_head e.interrupted st).2) := by
      simp [step, hpc, hp, await_step]
    obtain ⟨q1, q2, q3, q4⟩ := hhead st hpc rfl
    rw [hs]
    refine ⟨by simp [leaves_inner_loop, hp, q1], ?_, fun hr => q3 hr _, q4⟩
    simp [leaves_inner_loop, hp, q2]
  | timeout =>
    rw [step_timeout st e hpc hx hp]
    refine ⟨by simp [await_step, hpc, leaves_inner_loop, hp, matches_outstanding],
      by simp [await_step, hpc, leaves_inner_loop, hp, matches_outstanding],
      by simp [await_step, hpc], fun _ => ⟨hx, h1, h2⟩⟩
  | reply r =>
    cases hr : atoi r with
    | none =>
      have hs : step e st = ({ st with pc := Pc.undefined },
          [Effect.zmq_poll st.client REQUEST_TIMEOUT, Effect.zstr_recv st.client r]) := by
        simp [step, hpc, hp, await_step, hr]
      rw [hs]
      refine ⟨by simp [leaves_inner_loop, hp, matches_outstanding, hr], by simp [hr],
        by simp, fun hx => by simp at hx⟩
    | some v =>
      by_cases hv : v = st.sequence
      · subst hv
        have hs : step e st = ((loop_head e.interrupted { st with expect_reply := false }).1,
            [Effect.zmq_poll st.client REQUEST_TIMEOUT, Effect.zstr_recv st.client r,
             Effect.printf ("I: server replied OK (" ++ r ++ ")\n"), Effect.sleep 1]
            ++ (loop_head e.interrupted { st with expect_reply := false }).2) := by
          simp [step, hpc, hp, await_step_matched st r hr]
        obtain ⟨q1, q2, q3, q4⟩ := hhead { st with expect_reply := false } hpc rfl
        rw [hs]
        refine ⟨by simp [leaves_inner_loop, hp, matches_outstanding, hr, q1], ?_,
          fun hq => q3 hq _, q4⟩
        simp [leaves_inner_loop, hp, matches_outstanding, hr, q2]
      · have hs : step e st = (st,
            [Effect.zmq_poll st.client REQUEST_TIMEOUT, Effect.zstr_recv st.client r,
             Effect.printf ("E: bad reply from server: " ++ r ++ "\n")]) := by
          simp [step, hpc, hp, await_step_stale st r v hr hv, hx]
        have hne : ¬ (some v = some st.sequence) := by simpa using hv
        rw [hs]
        refine ⟨by simp [hpc, leaves_inner_loop, hp, matches_outstanding, hr, hne],
          by simp [hpc, leaves_inner_loop, hp, matches_outstanding, hr, hne],
          by simp [hpc], keep⟩

/-- A run grows `sequence` by at most one for each event, and without the
interruption flag it does not destroy the context. -/
theorem run_from_bounds : ∀ (evs : List Ev) (st : State),
    (run_from st evs).1.sequence ≤ st.sequence + evs.length ∧
    ((∀ e ∈ evs, e.interrupted = false) → Effect.zctx_destroy ∉ (run_from st evs).2) := by
  intro evs
  induction evs with
  | nil => intro st; simp [run_from]
  | cons e es ih =>
    intro st
    obtain ⟨s1, s2⟩ := step_bounds e st
    obtain ⟨i1, i2⟩ := ih (step e st).1
    refine ⟨?_, fun h => ?_⟩
    · simp only [run_from, List.length_cons]
      push_cast
      omega
    · simp only [run_from, List.mem_append, not_or]
      exact ⟨s2 (h e (List.mem_cons_self _ _)), i2 (fun x hx => h x (List.mem_cons_of_mem _ hx))⟩

/-- A run that is no longer waiting at its end has a first event at which it
stopped waiting; the state reached by that event is the state at the end. -/
theorem run_from_first_exit : ∀ (evs : List Ev) (st : State), count_inv st →
    st.pc = Pc.awaiting → (run_from st evs).1.pc ≠ Pc.awaiting →
    ∃ pre e post, evs = pre ++ e :: post ∧ (run_from st pre).1.pc = Pc.awaiting ∧
      count_inv (run_from st pre).1 ∧
      (run_from st evs).1 = (step e (run_from st pre).1).1 ∧
      (run_from st evs).2 = (run_from st pre).2 ++ (step e (run_from st pre).1).2 := by
  intro evs
  induction evs with
  | nil => intro st _ hpc h; exact absurd hpc h
  | cons e es ih =>
    intro st hinv hpc h
    obtain ⟨hx, h1, h2⟩ := hinv hpc
    have hinv' := (step_table e st hpc hx h1 h2).2.2.2
    by_cases hs : (step e st).1.pc = Pc.awaiting
    · obtain ⟨pre, x, post, q1, q2, q3, q4, q5⟩ := ih (step e st).1 hinv' hs h
      refine ⟨e :: pre, x, post, by rw [q1]; rfl, q2, q3, q4, ?_⟩
      simp only [run_from, q5, List.append_assoc]
    · refine ⟨[], e, es, rfl, hpc, hinv, ?_, ?_⟩
      · simp only [run_from]
        rw [run_from_stuck es _ hs]
      · simp only [run_from, List.nil_append]
        rw [run_from_stuck es _ hs]
        simp

/-- The last effect of two traces in a row is the last effect of the second. -/
theorem last_effect_append (a b : List Effect) (x : Effect) (h : b.getLast? = some x) :
    (a ++ b).getLast? = some x := by
  simp [List.getLast?_append, h]

/-- How a run that started waiting can end otherwise: returned, at an event
that left the inner loop with the interruption flag set, the context destroyed
last; or undefined, at a reply `atoi` cannot represent or at the request after
999999999. -/
theorem run_from_exit_cause (evs : List Ev) (st : State) (hinv : count_inv st)
    (hpc : st.pc = Pc.awaiting) :
    ((run_from st evs).1.pc = Pc.returned →
      (run_from st evs).2.getLast? = some Effect.zctx_destroy ∧
      ∃ pre e post, evs = pre ++ e :: post ∧ (run_from st pre).1.pc = Pc.awaiting ∧
        leaves_inner_loop (run_from st pre).1 e = true ∧ e.interrupted = true) ∧
    ((run_from st evs).1.pc = Pc.undefined →
      ∃ pre e post, evs = pre ++ e :: post ∧ (run_from st pre).1.pc = Pc.awaiting ∧
        ((∃ r, e.poll = Poll.reply r ∧ atoi r = none) ∨
         (leaves_inner_loop (run_from st pre).1 e = true ∧ e.interrupted = false ∧
          (run_from st pre).1.sequence = 999999999))) := by
  constructor
  · intro h
    obtain ⟨pre, x, post, q1, q2, q3, q4, q5⟩ :=
      run_from_first_exit evs st hinv hpc (by rw [h]; decide)
    obtain ⟨hx, h1, h2⟩ := q3 q2
    obtain ⟨t1, _, t3, _⟩ := step_table x (run_from st pre).1 q2 hx h1 h2
    rw [q4] at h
    refine ⟨?_, pre, x, post, q1, q2, (t1.1 h).1, (t1.1 h).2⟩
    rw [q5]
    exact last_effect_append _ _ _ (t3 h)
  · intro h
    obtain ⟨pre, x, post, q1, q2, q3, q4, q5⟩ :=
      run_from_first_exit evs st hinv hpc (by rw [h]; decide)
    obtain ⟨hx, h1, h2⟩ := q3 q2
    obtain ⟨_, t2, _, _⟩ := step_table x (run_from st pre).1 q2 hx h1 h2
    rw [q4] at h
    exact ⟨pre, x, post, q1, q2, t2.1 h⟩

/-- C12: in every run of `main`, for every sequence of poll outcomes, the
request loop is left (`main` returns, the context destroyed last) only when
`zctx_interrupted` has been read as set: at the first evaluation of the loop
condition, or after an event that left the inner loop.  The only other way a
run stops waiting is where ISO C leaves the behaviour undefined: a reply whose
numeral `atoi` cannot represent, or the request after 999999999, which overruns
`request [10]`.  So without the flag, with representable replies and fewer than
999999998 polls, the client is still waiting for a reply after any sequence of
failed polls, matched replies, stale replies and timeouts; and timeouts and
stale replies, however many, keep it waiting on the same request whatever the
flag.  Each step taken while waiting returns exactly when it leaves the inner
loop with the flag set, and is undefined exactly in the two cases named. -/
theorem C12_no_fatal_path (b : Bool) (evs : List Ev) :
    ((main b evs).1.pc = Pc.returned →
      (main b evs).2.getLast? = some Effect.zctx_destroy ∧
      (b = true ∨ ∃ pre e post, evs = pre ++ e :: post ∧ (main b pre).1.pc = Pc.awaiting ∧
        leaves_inner_loop (main b pre).1 e = true ∧ e.interrupted = true)) ∧
    ((main b evs).1.pc = Pc.undefined →
      ∃ pre e post, evs = pre ++ e :: post ∧ (main b pre).1.pc = Pc.awaiting ∧
        ((∃ r, e.poll = Poll.reply r ∧ atoi r = none) ∨
         (leaves_inner_loop (main b pre).1 e = true ∧ e.interrupted = false ∧
          (main b pre).1.sequence = 999999999))) ∧
    (b = false → (∀ e ∈ evs, e.interrupted = false) →
      (∀ e ∈ evs, ∀ r, e.poll = Poll.reply r → atoi r ≠ none) → evs.length < 999999998 →
      (main b evs).1.pc = Pc.awaiting ∧ Effect.zctx_destroy ∉ (main b evs).2) ∧
    ((∀ e ∈ evs, e.poll = Poll.timeout ∨
        ∃ r v, e.poll = Poll.reply r ∧ atoi r = some v ∧ v ≠ 1) →
      (main false evs).1.pc = Pc.awaiting ∧ (main false evs).1.sequence = 1 ∧
      Effect.zctx_destroy ∉ (main false evs).2) ∧
    (∀ st : State, st.pc = Pc.awaiting → st.expect_reply = true →
      (∀ e ∈ evs, e.poll = Poll.timeout ∨
        ∃ r v, e.poll = Poll.reply r ∧ atoi r = some v ∧ v ≠ st.sequence) →
      (run_from st evs).1.pc = Pc.awaiting ∧ (run_from st evs).1.sequence = st.sequence ∧
      Effect.zctx_destroy ∉ (run_from st evs).2) ∧
    (∀ (st : State) (e : Ev), st.pc = Pc.awaiting → st.expect_reply = true →
      1 ≤ st.sequence → st.sequence ≤ 999999999 →
      ((step e st).1.pc = Pc.returned ↔
        leaves_inner_loop st e = true ∧ e.interrupted = true) ∧
      ((step e st).1.pc = Pc.undefined ↔
        (∃ r, e.poll = Poll.reply r ∧ atoi r = none) ∨
        (leaves_inner_loop st e = true ∧ e.interrupted = false ∧
         st.sequence = 999999999))) := by
  have h0 : loop_head false startup.1 =
      (awaiting_state 0 0 1 1, [Effect.zstr_send 0 (sprintf_d 1)]) := by decide
  have hinv : count_inv (awaiting_state 0 0 1 1) := fun _ => ⟨rfl, by decide, by decide⟩
  have e1 : ∀ l : List Ev, (main false l).1 = (run_from (awaiting_state 0 0 1 1) l).1 := by
    intro l; simp [main, h0]
  have e2 : ∀ l : List Ev, (main false l).2
      = (startup.2 ++ [Effect.zstr_send 0 (sprintf_d 1)])
        ++ (run_from (awaiting_state 0 0 1 1) l).2 := by
    intro l; simp [main, h0]
  have hwait : (∀ e ∈ evs, e.poll = Poll.timeout ∨
        ∃ r v, e.poll = Poll.reply r ∧ atoi r = some v ∧ v ≠ 1) →
      (main false evs).1.pc = Pc.awaiting ∧ (main false evs).1.sequence = 1 ∧
      Effect.zctx_destroy ∉ (main false evs).2 := by
    intro h
    obtain ⟨i1, i2, i3⟩ := run_from_waiting evs (awaiting_state 0 0 1 1) rfl rfl h
    refine ⟨by rw [e1]; exact i1, by rw [e1]; exact i2, ?_⟩
    rw [e2]
    simp only [List.mem_append, not_or]
    exact ⟨⟨by decide, by decide⟩, i3⟩
  have htable : ∀ (st : State) (e : Ev), st.pc = Pc.awaiting → st.expect_reply = true →
      1 ≤ st.sequence → st.sequence ≤ 999999999 →
      ((step e st).1.pc = Pc.returned ↔
        leaves_inner_loop st e = true ∧ e.interrupted = true) ∧
      ((step e st).1.pc = Pc.undefined ↔
        (∃ r, e.poll = Poll.reply r ∧ atoi r = none) ∨
        (leaves_inner_loop st e = true ∧ e.interrupted = false ∧
         st.sequence = 999999999)) := by
    intro st e a1 a2 a3 a4
    exact ⟨(step_table e st a1 a2 a3 a4).1, (step_table e st a1 a2 a3 a4).2.1⟩
  cases b with
  | true =>
    have hs : run_from (loop_head true startup.1).1 evs = ((loop_head true startup.1).1, []) :=
      run_from_stuck evs _ (by decide)
    have hm : main true evs = ((loop_head true startup.1).1,
        startup.2 ++ (loop_head true startup.1).2 ++ []) := by
      simp [main, hs]
    refine ⟨fun _ => ⟨?_, Or.inl rfl⟩, ?_, ?_, hwait,
      fun st h1 h2 h3 => run_from_waiting evs st h1 h2 h3, htable⟩
    · rw [hm]; decide
    · intro h; rw [hm] at h; exact absurd h (by decide)
    · intro h; cases h
  | false =>
    obtain ⟨c1, c2⟩ := run_from_exit_cause evs (awaiting_state 0 0 1 1) hinv rfl
    have hA : (main false evs).1.pc = Pc.returned →
        (main false evs).2.getLast? = some Effect.zctx_destroy ∧
        (false = true ∨ ∃ pre e post, evs = pre ++ e :: post ∧
          (main false pre).1.pc = Pc.awaiting ∧
          leaves_inner_loop (main false pre).1 e = true ∧ e.interrupted = true) := by
      intro h
      rw [e1] at h
      obtain ⟨g, pre, x, post, q⟩ := c1 h
      refine ⟨?_, Or.inr ⟨pre, x, post, ?_⟩⟩
      · rw [e2]
        exact last_effect_append _ _ _ g
      · rw [e1]
        exact q
    have hB : (main false evs).1.pc = Pc.undefined →
        ∃ pre e post, evs = pre ++ e :: post ∧ (main false pre).1.pc = Pc.awaiting ∧
          ((∃ r, e.poll = Poll.reply r ∧ atoi r = none) ∨
           (leaves_inner_loop (main false pre).1 e = true ∧ e.interrupted = false ∧
            (main false pre).1.sequence = 999999999)) := by
      intro h
      rw [e1] at h
      obtain ⟨pre, x, post, q⟩ := c2 h
      refine ⟨pre, x, post, ?_⟩
      rw [e1]
      exact q
    refine ⟨hA, hB, ?_, hwait, fun st h1 h2 h3 => run_from_waiting evs st h1 h2 h3, htable⟩
    intro _ hflag hrep hlen
    have hnd : Effect.zctx_destroy ∉ (main false evs).2 := by
      rw [e2]
      simp only [List.mem_append, not_or]
      exact ⟨⟨by decide, by decide⟩, (run_from_bounds evs _).2 hflag⟩
    refine ⟨?_, hnd⟩
    cases hpc : (main false evs).1.pc with
    | awaiting => rfl
    | returned =>
      obtain ⟨_, hc⟩ := hA hpc
      rcases hc with hc | ⟨pre, x, post, q1, _, _, q4⟩
      · cases hc
      · have := hflag x (by rw [q1]; simp)
        rw [this] at q4
        cases q4
    | undefined =>
      obtain ⟨pre, x, post, q1, _, hc⟩ := hB hpc
      rcases hc with ⟨r, hr, hn⟩ | ⟨_, _, hq⟩
      · exact absurd hn (hrep x (by rw [q1]; simp) r hr)
      · have hb := (run_from_bounds pre (awaiting_state 0 0 1 1)).1
        rw [e1] at hq
        rw [hq] at hb
        have hl : pre.length < evs.length := by rw [q1]; simp
        simp only [awaiting_state] at hb
        omega

/-- C12, witness: a failed poll, the reply to the request sent after it, a
timeout and a stale reply, without the interruption flag: the client is still
waiting; and eight timeouts with the flag set all the while do not stop it. -/
theorem C12_no_fatal_path_witness :
    ((∀ e ∈ [({ poll := Poll.fail, interrupted := false } : Ev),
             { poll := Poll.reply "2", interrupted := false },
             { poll := Poll.timeout, interrupted := false },
             { poll := Poll.reply "9", interrupted := false }], e.interrupted = false) ∧
     (main false [{ poll := Poll.fail, interrupted := false },
                  { poll := Poll.reply "2", interrupted := false },
                  { poll := Poll.timeout, interrupted := false },
                  { poll := Poll.reply "9", interrupted := false }]).1.pc = Pc.awaiting ∧
     Effect.zctx_destroy ∉
       (main false [{ poll := Poll.fail, interrupted := false },
                    { poll := Poll.reply "2", interrupted := false },
                    { poll := Poll.timeout, interrupted := false },
                    { poll := Poll.reply "9", interrupted := false }]).2) ∧
    ((∀ e ∈ List.replicate 8 ({ poll := Poll.timeout, interrupted := true } : Ev),
      e.poll = Poll.timeout ∨ ∃ r v, e.poll = Poll.reply r ∧ atoi r = some v ∧ v ≠ 1) ∧
     (main false (List.replicate 8 { poll := Poll.timeout, interrupted := true })).1.pc
       = Pc.awaiting ∧
     (main false (List.replicate 8 { poll := Poll.timeout, interrupted := true })).1.sequence
       = 1 ∧
     Effect.zctx_destroy ∉
       (main false (List.replicate 8 { poll := Poll.timeout, interrupted := true })).2) :=
  ⟨⟨by decide,
    (C12_no_fatal_path false [{ poll := Poll.fail, interrupted := false },
        { poll := Poll.reply "2", interrupted := false },
        { poll := Poll.timeout, interrupted := false },
        { poll := Poll.reply "9", interrupted := false }]).2.2.1 rfl (by decide)
      (by
        intro e he r hr
        simp only [List.mem_cons, List.mem_singleton, List.not_mem_nil, or_false] at he
        rcases he with rfl | rfl | rfl | rfl <;> simp at hr <;> subst hr <;> decide)
      (by decide)⟩,
   ⟨by simp,
    (C12_no_fatal_path false
      (List.replicate 8 { poll := Poll.timeout, interrupted := true })).2.2.2.1 (by simp)⟩⟩

/-! ## C13: the other server -/

/-- C13: on the two indices 0 and 1, `swap` gives the other index, and applied
twice the index it started from; its result is always 0 or 1, so the address
selected is one of the two configured; and the failover assigns `server_nbr`
by `swap`. -/
theorem C13_swap_involution (i : Nat) (h : i < 2) :
    swap i = 1 - i ∧ swap i ≠ i ∧ swap (swap i) = i ∧
    (∀ j : Nat, swap j < 2 ∧ (server (swap j) = server 0 ∨ server (swap j) = server 1)) ∧
    (∀ st : State, (await_step Poll.timeout st).st.server_nbr = swap st.server_nbr) := by
  have h1 : swap i = 1 - i := (swap_lt i).2 h
  refine ⟨h1, by rw [h1]; omega, ?_, ?_, fun st => rfl⟩
  · rw [h1, (swap_lt (1 - i)).2 (by omega)]
    omega
  · intro j
    have hj := (swap_lt j).1
    refine ⟨hj, ?_⟩
    have : swap j = 0 ∨ swap j = 1 := by omega
    rcases this with e | e <;> simp [e]

/-- C13, witness: the index 1. -/
theorem C13_swap_involution_witness :
    1 < 2 ∧ swap 1 = 1 - 1 ∧ swap 1 ≠ 1 ∧ swap (swap 1) = 1 :=
  ⟨by decide, (C13_swap_involution 1 (by decide)).1, (C13_swap_involution 1 (by decide)).2.1,
   (C13_swap_involution 1 (by decide)).2.2.1⟩

/-! ## C14: the format of a request -/

/-- The digits of a number are digit characters. -/
theorem toDigits_all_isdigit (n : Nat) : (Nat.toDigits 10 n).all isdigit = true := by
  induction n using Nat.strong_induction_on with
  | _ n ih =>
    by_cases h : n < 10
    · rw [toDigits_lt n h]
      simp [(isdigit_digitChar n h).1]
    · rw [toDigits_ge n (by omega)]
      simp only [List.all_append, ih (n / 10) (by omega), Bool.true_and]
      simp [(isdigit_digitChar (n % 10) (by omega)).1]

/-- The digits of a positive number do not start with a zero. -/
theorem toDigits_head_ne_zero (n : Nat) (h1 : 1 ≤ n) :
    (Nat.toDigits 10 n).head? ≠ some '0' := by
  induction n using Nat.strong_induction_on with
  | _ n ih =>
    by_cases h : n < 10
    · rw [toDigits_lt n h]
      interval_cases n <;> decide
    · rw [toDigits_ge n (by omega)]
      obtain ⟨d, tl, _, e⟩ := toDigits_head (n / 10)
      have := ih (n / 10) (by omega) (by omega)
      rw [e] at this ⊢
      simpa using this

/-- Read as a decimal integer, the output of `sprintf` for a natural number is
that number. -/
theorem decimal_integer_sprintf_d (n : Nat) : decimal_integer (sprintf_d (n : Int)) = some (n : Int) := by
  obtain ⟨d, tl, hd, e⟩ := toDigits_head n
  have hall := toDigits_all_isdigit n
  have hval := digits_value_toDigits n []
  simp only [List.append_nil, digits_value] at hval
  rw [digits_value_all_digits _ 0 hall] at hval
  have hc := isdigit_digitChar d hd
  rw [e] at hall hval
  simp only [decimal_integer, sprintf_d_ofNat, e, hc.2.2.2.1, hc.2.2.2.2, if_false, hall, if_true,
    decimal_value, hval]

/-- A new request sent from a state with `sequence >= 0` carries a number from
1 to 999999999. -/
theorem loop_head_issued (b : Bool) (st : State) (h : 0 ≤ st.sequence) :
    issued_inv (loop_head b st).1 ∧ ∀ p ∈ payloads (loop_head b st).2, issued p := by
  cases b with
  | true => exact ⟨⟨h, fun hx => by simp [loop_head] at hx⟩, by simp [loop_head, payloads]⟩
  | false =>
    simp only [loop_head, Bool.false_eq_true, if_false, send_request]
    split
    · rename_i hc
      have hr := (sprintf_d_fits_iff _).1 hc.2
      have hi : issued (sprintf_d (st.sequence + 1)) := by
        refine ⟨(st.sequence + 1).toNat, by omega, by omega, ?_⟩
        rw [Int.toNat_of_nonneg (by omega)]
      exact ⟨⟨by simp only; omega, fun _ => hi⟩, by simpa [payloads] using hi⟩
    · exact ⟨⟨h, fun hx => by simp at hx⟩, by simp [payloads]⟩

/-- One step sends only payloads that carry a number from 1 to 999999999. -/
theorem step_issued (e : Ev) (st : State) (h : issued_inv st) :
    issued_inv (step e st).1 ∧ ∀ p ∈ payloads (step e st).2, issued p := by
  obtain ⟨h1, h2⟩ := h
  unfold step
  by_cases hpc : st.pc = Pc.awaiting
  · rw [if_pos hpc]
    have hreq := h2 hpc
    have ha : 0 ≤ (await_step e.poll st).st.sequence ∧
        ((await_step e.poll st).st.pc = Pc.awaiting → issued (await_step e.poll st).st.request) ∧
        ∀ p ∈ payloads (await_step e.poll st).effects, issued p := by
      cases hp : e.poll with
      | fail => exact ⟨h1, fun _ => hreq, by simp [await_step, payloads]⟩
      | timeout => exact ⟨h1, fun _ => hreq, by simpa [await_step, payloads] using hreq⟩
      | reply r =>
        cases hr : atoi r with
        | none => exact ⟨by simpa [await_step, hr] using h1, fun hx => by simp [await_step, hr] at hx,
            by simp [await_step, hr, payloads]⟩
        | some v =>
          by_cases hv : v = st.sequence
          · subst hv
            rw [await_step_matched st r hr]
            exact ⟨h1, fun _ => hreq, by simp [payloads]⟩
          · rw [await_step_stale st r v hr hv]
            exact ⟨h1, fun _ => hreq, by simp [payloads]⟩
    obtain ⟨a1, a2, a3⟩ := ha
    dsimp only
    split
    · obtain ⟨l1, l2⟩ := loop_head_issued e.interrupted (await_step e.poll st).st a1
      refine ⟨l1, ?_⟩
      intro p hp
      rw [payloads_append, List.mem_append] at hp
      rcases hp with hp | hp
      · exact a3 p hp
      · exact l2 p hp
    · exact ⟨⟨a1, a2⟩, a3⟩
  · rw [if_neg hpc]
    exact ⟨⟨h1, h2⟩, by simp [payloads]⟩

/-- A run sends only payloads that carry a number from 1 to 999999999. -/
theorem run_from_issued : ∀ (evs : List Ev) (st : State), issued_inv st →
    ∀ p ∈ payloads (run_from st evs).2, issued p := by
  intro evs
  induction evs with
  | nil => intro st _ p hp; simp [run_from, payloads] at hp
  | cons e es ih =>
    intro st h p hp
    obtain ⟨s1, s2⟩ := step_issued e st h
    simp only [run_from, payloads_append, List.mem_append] at hp
    rcases hp with hp | hp
    · exact s2 p hp
    · exact ih _ s1 p hp

/-- C14: every payload passed to `zstr_send` in a run of `main` is the decimal
representation of a sequence number `n` from 1 to 999999999, as `sprintf`
writes it: only digits (no sign, no padding), no leading zero, and read back as
a decimal integer, or by `atoi`, it gives `n`; and a new request carries the
value `sequence` has just been given. -/
theorem C14_request_frame (b : Bool) (evs : List Ev) (p : String)
    (hp : p ∈ payloads (main b evs).2) :
    (∃ n : Nat, 1 ≤ n ∧ n ≤ 999999999 ∧ p = sprintf_d (n : Int) ∧ p = Nat.repr n ∧
      p.data ≠ [] ∧ p.data.all isdigit = true ∧ p.data.head? ≠ some '0' ∧
      decimal_integer p = some (n : Int) ∧ atoi p = some (n : Int)) ∧
    (∀ st : State, (send_request st).1.pc = Pc.awaiting →
      (send_request st).2 = [Effect.zstr_send st.client (sprintf_d (send_request st).1.sequence)]) := by
  constructor
  · have hi : issued p := by
      obtain ⟨l1, l2⟩ := loop_head_issued b startup.1 (by decide)
      simp only [main, payloads_append, List.mem_append] at hp
      rcases hp with (hp | hp) | hp
      · simp [startup, payloads] at hp
      · exact l2 p hp
      · exact run_from_issued evs _ l1 p hp
    obtain ⟨n, h1, h2, rfl⟩ := hi
    obtain ⟨d, tl, _, e⟩ := toDigits_head n
    refine ⟨n, h1, h2, rfl, rfl, ?_, ?_, ?_, decimal_integer_sprintf_d n, ?_⟩
    · simp [sprintf_d_ofNat, e]
    · simpa [sprintf_d_ofNat] using toDigits_all_isdigit n
    · simpa [sprintf_d_ofNat] using toDigits_head_ne_zero n h1
    · apply atoi_sprintf_d
      · simp only [INT_MIN]; omega
      · simp only [INT_MAX]; omega
  · intro st h
    obtain ⟨q1, _, _, q4⟩ := send_request_sequence st h
    rw [q4, q1]

/-- C14, witness: the payloads of a run with a round-trip and a timeout. -/
theorem C14_request_frame_witness :
    "2" ∈ payloads (main false [{ poll := Poll.reply "1", interrupted := false },
                                 { poll := Poll.timeout, interrupted := false }]).2 ∧
    ∃ n : Nat, 1 ≤ n ∧ n ≤ 999999999 ∧ "2" = sprintf_d (n : Int) ∧ "2" = Nat.repr n ∧
      "2".data ≠ [] ∧ "2".data.all isdigit = true ∧ "2".data.head? ≠ some '0' ∧
      decimal_integer "2" = some (n : Int) ∧ atoi "2" = some (n : Int) :=
  ⟨by decide,
   (C14_request_frame false [{ poll := Poll.reply "1", interrupted := false },
                             { poll := Poll.timeout, interrupted := false }] "2" (by decide)).1⟩

/-! ## C15: the failover -/

/-- The timeouts of the polls of two traces in a row. -/
theorem poll_timeouts_append (a b : List Effect) :
    poll_timeouts (a ++ b) = poll_timeouts a ++ poll_timeouts b := by
  induction a with
  | nil => rfl
  | cons x xs ih => cases x <;> simp [poll_timeouts, ih]

/-- The sockets destroyed in two traces in a row. -/
theorem destroyed_append (a b : List Effect) : destroyed (a ++ b) = destroyed a ++ destroyed b := by
  induction a with
  | nil => rfl
  | cons x xs ih => cases x <;> simp [destroyed, ih]

/-- The time spent in the polls is at most the sum of their timeouts. -/
theorem waited_le (es : List Effect) : ∀ (ws : List Nat) (T : Nat),
    waited es ws = some T → T ≤ (poll_timeouts es).sum := by
  induction es with
  | nil =>
    intro ws T h
    cases ws with
    | nil => simp [waited] at h; simp [poll_timeouts, ← h]
    | cons w ws => simp [waited] at h
  | cons x xs ih =>
    intro ws T h
    cases x with
    | zmq_poll s t =>
      cases ws with
      | nil => simp [waited] at h
      | cons w ws =>
        simp only [waited] at h
        split at h
        · rename_i hw
          cases hq : waited xs ws with
          | none => simp [hq] at h
          | some T' =>
            simp [hq] at h
            have := ih ws T' hq
            simp only [poll_timeouts, List.sum_cons]
            omega
        · simp at h
    | zctx_new => simp only [waited, poll_timeouts] at h ⊢; exact ih ws T h
    | printf a => simp only [waited, poll_timeouts] at h ⊢; exact ih ws T h
    | zsocket_new a => simp only [waited, poll_timeouts] at h ⊢; exact ih ws T h
    | zsocket_connect a c => simp only [waited, poll_timeouts] at h ⊢; exact ih ws T h
    | zstr_send a c => simp only [waited, poll_timeouts] at h ⊢; exact ih ws T h
    | zstr_recv a c => simp only [waited, poll_timeouts] at h ⊢; exact ih ws T h
    | zsocket_destroy a => simp only [waited, poll_timeouts] at h ⊢; exact ih ws T h
    | zclock_sleep a => simp only [waited, poll_timeouts] at h ⊢; exact ih ws T h
    | sleep a => simp only [waited, poll_timeouts] at h ⊢; exact ih ws T h
    | zctx_destroy => simp only [waited, poll_timeouts] at h ⊢; exact ih ws T h

/-- When every poll has the timeout `t`, waits of at most `t`, one for each
poll, add up. -/
theorem waited_sum (t : Nat) (es : List Effect) : ∀ ws : List Nat,
    (∀ x ∈ poll_timeouts es, x = t) → ws.length = (poll_timeouts es).length →
    (∀ w ∈ ws, w ≤ t) → waited es ws = some ws.sum := by
  induction es with
  | nil =>
    intro ws _ hl _
    cases ws with
    | nil => rfl
    | cons w ws => simp [poll_timeouts] at hl
  | cons x xs ih =>
    intro ws ht hl hw
    cases x with
    | zmq_poll s u =>
      cases ws with
      | nil => simp [poll_timeouts] at hl
      | cons w ws =>
        simp only [poll_timeouts, List.mem_cons, forall_eq_or_imp, List.length_cons,
          Nat.add_right_cancel_iff] at ht hl hw
        have := ih ws ht.2 hl hw.2
        simp [waited, ht.1, hw.1, this]
    | zctx_new => simp only [waited, poll_timeouts] at ht hl ⊢; exact ih ws ht hl hw
    | printf a => simp only [waited, poll_timeouts] at ht hl ⊢; exact ih ws ht hl hw
    | zsocket_new a => simp only [waited, poll_timeouts] at ht hl ⊢; exact ih ws ht hl hw
    | zsocket_connect a c => simp only [waited, poll_timeouts] at ht hl ⊢; exact ih ws ht hl hw
    | zstr_send a c => simp only [waited, poll_timeouts] at ht hl ⊢; exact ih ws ht hl hw
    | zstr_recv a c => simp only [waited, poll_timeouts] at ht hl ⊢; exact ih ws ht hl hw
    | zsocket_destroy a => simp only [waited, poll_timeouts] at ht hl ⊢; exact ih ws ht hl hw
    | zclock_sleep a => simp only [waited, poll_timeouts] at ht hl ⊢; exact ih ws ht hl hw
    | sleep a => simp only [waited, poll_timeouts] at ht hl ⊢; exact ih ws ht hl hw
    | zctx_destroy => simp only [waited, poll_timeouts] at ht hl ⊢; exact ih ws ht hl hw

/-- Stale replies in front of a run: each costs one poll with the full timeout
and changes nothing else. -/
theorem run_from_stale_then (st : State) (k : Int) (h : outstanding st k) (rest : List Ev) :
    ∀ stales : List Ev,
    (∀ e ∈ stales, ∃ r v, e.poll = Poll.reply r ∧ atoi r = some v ∧ v ≠ k) →
    (run_from st (stales ++ rest)).1 = (run_from st rest).1 ∧
    poll_timeouts (run_from st (stales ++ rest)).2 =
      List.replicate stales.length REQUEST_TIMEOUT ++ poll_timeouts (run_from st rest).2 ∧
    destroyed (run_from st (stales ++ rest)).2 = destroyed (run_from st rest).2 := by
  intro stales
  induction stales with
  | nil => intro _; simp
  | cons e es ih =>
    intro hs
    obtain ⟨r, v, hr, hv, hne⟩ := hs e (List.mem_cons_self _ _)
    obtain ⟨i1, i2, i3⟩ := ih (fun x hx => hs x (List.mem_cons_of_mem _ hx))
    have hstep : step e st = (st,
        [Effect.zmq_poll st.client REQUEST_TIMEOUT, Effect.zstr_recv st.client r,
         Effect.printf ("E: bad reply from server: " ++ r ++ "\n")]) := by
      simp [step, h.1, hr, await_step_stale st r v hv (by rw [h.2.2.1]; exact hne), h.2.1]
    simp only [List.cons_append, run_from, hstep, poll_timeouts_append, destroyed_append]
    simp only [poll_timeouts, destroyed, List.replicate_succ, List.length_cons, List.cons_append,
      List.nil_append, List.append_eq, i2, i3, and_self, and_true]
    exact i1

/-- C16, as it fails: request 1 is outstanding; a stale reply "7" arrives 600
msecs after the request was sent and then no reply comes.  The next poll is
given the full 1000 msecs again, not the 400 left, and the client fails over
1600 msecs after sending the request, not after 1000. -/
theorem C16_counterexample :
    outstanding (awaiting_state 0 0 1 1) 1 ∧ atoi "7" = some 7 ∧
    poll_timeouts (run_from (awaiting_state 0 0 1 1)
      [{ poll := Poll.reply "7", interrupted := false },
       { poll := Poll.timeout, interrupted := false }]).2 = [1000, 1000] ∧
    destroyed (run_from (awaiting_state 0 0 1 1)
      [{ poll := Poll.reply "7", interrupted := false },
       { poll := Poll.timeout, interrupted := false }]).2 = [0] ∧
    waited (run_from (awaiting_state 0 0 1 1)
      [{ poll := Poll.reply "7", interrupted := false },
       { poll := Poll.timeout, interrupted := false }]).2 [600, 1000] = some 1600 ∧
    REQUEST_TIMEOUT < 1600 ∧ REQUEST_TIMEOUT - 600 ≠ 1000 := by
  decide

/-- C16, amended: a stale reply restarts the wait.  While request `k` is
outstanding, after any number j of stale replies the client polls again with
the full `REQUEST_TIMEOUT`; up to the failover there are j + 1 polls, each with
that timeout, so the time waited from sending the request to failing over is
the sum of the j + 1 waits, at most (j + 1) * `REQUEST_TIMEOUT`. -/
theorem C16_stale_reply_restarts_wait (st : State) (k : Int) (stales : List Ev) (b : Bool)
    (h : outstanding st k)
    (hs : ∀ e ∈ stales, ∃ r v, e.poll = Poll.reply r ∧ atoi r = some v ∧ v ≠ k) :
    poll_timeouts (run_from st (stales ++ [{ poll := Poll.timeout, interrupted := b }])).2
      = List.replicate (stales.length + 1) REQUEST_TIMEOUT ∧
    destroyed (run_from st (stales ++ [{ poll := Poll.timeout, interrupted := b }])).2
      = [st.client] ∧
    (∀ (ws : List Nat) (T : Nat),
      waited (run_from st (stales ++ [{ poll := Poll.timeout, interrupted := b }])).2 ws = some T →
      T ≤ (stales.length + 1) * REQUEST_TIMEOUT) ∧
    (∀ ws : List Nat, ws.length = stales.length + 1 → (∀ w ∈ ws, w ≤ REQUEST_TIMEOUT) →
      waited (run_from st (stales ++ [{ poll := Poll.timeout, interrupted := b }])).2 ws
        = some ws.sum) := by
  obtain ⟨i1, i2, i3⟩ := run_from_stale_then st k h [{ poll := Poll.timeout, interrupted := b }]
    stales hs
  have hstep := step_timeout st { poll := Poll.timeout, interrupted := b } h.1 h.2.1 rfl
  have hp : poll_timeouts (run_from st [{ poll := Poll.timeout, interrupted := b }]).2
      = [REQUEST_TIMEOUT] := by
    simp [run_from, hstep, await_step, poll_timeouts]
  have hd : destroyed (run_from st [{ poll := Poll.timeout, interrupted := b }]).2
      = [st.client] := by
    simp [run_from, hstep, await_step, destroyed]
  have hall : poll_timeouts
      (run_from st (stales ++ [{ poll := Poll.timeout, interrupted := b }])).2
      = List.replicate (stales.length + 1) REQUEST_TIMEOUT := by
    rw [i2, hp, List.replicate_succ']
  refine ⟨hall, by rw [i3, hd], ?_, ?_⟩
  · intro ws T hw
    have := waited_le _ ws T hw
    rw [hall] at this
    simpa using this
  · intro ws hl hw
    apply waited_sum REQUEST_TIMEOUT
    · intro x hx
      rw [hall] at hx
      exact List.eq_of_mem_replicate hx
    · rw [hall, hl]
      simp
    · exact hw

/-- C16, amended, witness: request 1 is outstanding and the stale reply "7"
comes before the timeout. -/
theorem C16_stale_reply_restarts_wait_witness :
    outstanding (awaiting_state 0 0 1 1) 1 ∧
    (∀ e ∈ [({ poll := Poll.reply "7", interrupted := false } : Ev)],
      ∃ r v, e.poll = Poll.reply r ∧ atoi r = some v ∧ v ≠ 1) ∧
    poll_timeouts (run_from (awaiting_state 0 0 1 1)
      ([{ poll := Poll.reply "7", interrupted := false }]
        ++ [{ poll := Poll.timeout, interrupted := false }])).2
      = List.replicate ([({ poll := Poll.reply "7", interrupted := false } : Ev)].length + 1)
          REQUEST_TIMEOUT :=
  ⟨by decide, by simp; decide,
   (C16_stale_reply_restarts_wait (awaiting_state 0 0 1 1) 1
      [{ poll := Poll.reply "7", interrupted := false }] false (by decide)
      (by simp; decide)).1⟩

/-! ## C17: the pause after a reply -/

/-- C17: while request `k` is outstanding, a reply whose number is `k` clears
`expect_reply`, is followed by one `sleep (1)`, and leaves `server_nbr`, the
socket and `sequence` as they are; when `zctx_interrupted` is not set the next
request, `k + 1`, is then sent on the same socket (`k < 999999999`, so that it
fits the buffer), and when it is set the context is destroyed instead.  A stale
reply, a timeout and a failed poll are followed by no `sleep`. -/
theorem C17_pacing (st : State) (k : Int) (r : String) (h : outstanding st k)
    (hr : atoi r = some k) :
    (await_step (Poll.reply r) st).st = { st with expect_reply := false } ∧
    (await_step (Poll.reply r) st).effects =
      [Effect.zmq_poll st.client REQUEST_TIMEOUT, Effect.zstr_recv st.client r,
       Effect.printf ("I: server replied OK (" ++ r ++ ")\n"), Effect.sleep 1] ∧
    pauses (await_step (Poll.reply r) st).effects = [1] ∧
    (k < 999999999 →
      step { poll := Poll.reply r, interrupted := false } st =
        ({ st with sequence := k + 1, request := sprintf_d (k + 1) },
         [Effect.zmq_poll st.client REQUEST_TIMEOUT, Effect.zstr_recv st.client r,
          Effect.printf ("I: server replied OK (" ++ r ++ ")\n"), Effect.sleep 1,
          Effect.zstr_send st.client (sprintf_d (k + 1))])) ∧
    step { poll := Poll.reply r, interrupted := true } st =
        ({ st with expect_reply := false, pc := Pc.returned },
         [Effect.zmq_poll st.client REQUEST_TIMEOUT, Effect.zstr_recv st.client r,
          Effect.printf ("I: server replied OK (" ++ r ++ ")\n"), Effect.sleep 1,
          Effect.zctx_destroy]) ∧
    (∀ (s : String) (v : Int), atoi s = some v → v ≠ k →
      pauses (await_step (Poll.reply s) st).effects = []) ∧
    pauses (await_step Poll.timeout st).effects = [] ∧
    pauses (await_step Poll.fail st).effects = [] := by
  obtain ⟨h1, h2, h3, h4, h5⟩ := h
  have hr' : atoi r = some st.sequence := by rw [h3]; exact hr
  have hm := await_step_matched st r hr'
  refine ⟨by rw [hm], by rw [hm], by rw [hm]; rfl, ?_, ?_, ?_, rfl, rfl⟩
  · intro hk
    have hrange : -99999999 ≤ k ∧ k ≤ 999999999 := by
      rw [h4] at h5
      exact (sprintf_d_fits_iff k).1 h5
    have hfit : (sprintf_d (k + 1)).length + 1 ≤ REQUEST_SIZE :=
      (sprintf_d_fits_iff (k + 1)).2 ⟨by omega, by omega⟩
    have hmax : k + 1 ≤ INT_MAX := by simp only [INT_MAX]; omega
    simp [step, h1, hm, loop_head, send_request, h3, hfit, hmax, h2]
  · simp [step, h1, hm, loop_head]
  · intro s v hs hv
    rw [await_step_stale st s v hs (by rw [h3]; exact hv)]
    rfl

/-- C17, witness (Scenario B): the primary answers request 1 and then stops
answering.  "1" goes to the primary, then the pause, "2" goes to the primary,
the poll times out, the client fails over, "2" goes to the backup and its reply
is accepted. -/
theorem C17_pacing_witness :
    (outstanding (awaiting_state 0 0 1 1) 1 ∧ atoi "1" = some 1) ∧
    pauses (await_step (Poll.reply "1") (awaiting_state 0 0 1 1)).effects = [1] ∧
    actions (main false [{ poll := Poll.reply "1", interrupted := false },
                         { poll := Poll.timeout, interrupted := false },
                         { poll := Poll.reply "2", interrupted := true }]).2 =
      [Effect.zctx_new, Effect.zsocket_new 0,
       Effect.zsocket_connect 0 "tcp://localhost:5001",
       Effect.zstr_send 0 "1", Effect.zmq_poll 0 1000, Effect.zstr_recv 0 "1", Effect.sleep 1,
       Effect.zstr_send 0 "2", Effect.zmq_poll 0 1000,
       Effect.zsocket_destroy 0, Effect.zclock_sleep 2000, Effect.zsocket_new 1,
       Effect.zsocket_connect 1 "tcp://localhost:5002",
       Effect.zstr_send 1 "2", Effect.zmq_poll 1 1000, Effect.zstr_recv 1 "2", Effect.sleep 1,
       Effect.zctx_destroy] :=
  ⟨by decide,
   (C17_pacing (awaiting_state 0 0 1 1) 1 "1" (by decide) (by decide)).2.2.1,
   by decide⟩

/-! ## C18: the size of the request buffer -/

/-- C18: for every `n` from 1 to 999999999 the string `sprintf` writes has at
most 9 characters and fits, with its terminator, in the 10 bytes of `request`;
for every `int` from 1000000000 on it has 10 characters, needs 11 bytes and
does not fit, and the request that would carry it is not defined. -/
theorem C18_request_buffer (n : Int) :
    (1 ≤ n → n ≤ 999999999 →
      (sprintf_d n).length ≤ 9 ∧ (sprintf_d n).length + 1 ≤ REQUEST_SIZE ∧
      ∀ st : State, st.sequence + 1 = n → (send_request st).1.pc = Pc.awaiting) ∧
    (1000000000 ≤ n → n ≤ INT_MAX →
      (sprintf_d n).length + 1 = 11 ∧ ¬ (sprintf_d n).length + 1 ≤ REQUEST_SIZE ∧
      ∀ st : State, st.sequence + 1 = n → (send_request st).1.pc = Pc.undefined) ∧
    REQUEST_SIZE = 10 := by
  refine ⟨?_, ?_, rfl⟩
  · intro h1 h2
    have hfit : (sprintf_d n).length + 1 ≤ REQUEST_SIZE :=
      (sprintf_d_fits_iff n).2 ⟨by omega, h2⟩
    refine ⟨by simp only [REQUEST_SIZE] at hfit; omega, hfit, ?_⟩
    intro st hs
    have hmax : st.sequence + 1 ≤ INT_MAX := by simp only [INT_MAX]; omega
    have hfit' : (sprintf_d (st.sequence + 1)).length + 1 ≤ REQUEST_SIZE := by
      rw [hs]; exact hfit
    simp [send_request, hfit', hmax]
  · intro h1 h2
    have hn : n = ((n.toNat : Nat) : Int) := (Int.toNat_of_nonneg (by omega)).symm
    have hlen10 := (toDigits_length_le 9 n.toNat).2 (by simp only [INT_MAX] at h2; omega)
    have hlen9 := (toDigits_length_le 8 n.toNat).not.2 (by omega)
    have hlen : (sprintf_d n).length = 10 := by
      rw [hn, sprintf_d_ofNat]
      simp only [String.length]
      omega
    refine ⟨by omega, by simp only [REQUEST_SIZE]; omega, ?_⟩
    intro st hs
    have hno : ¬ (sprintf_d (st.sequence + 1)).length + 1 ≤ REQUEST_SIZE := by
      rw [hs]; simp only [REQUEST_SIZE]; omega
    simp [send_request, hno]

/-- C18, witness: 999999999 fits and 1000000000 does not. -/
theorem C18_request_buffer_witness :
    ((1 : Int) ≤ 999999999 ∧ (999999999 : Int) ≤ 999999999 ∧
      (sprintf_d 999999999).length ≤ 9 ∧ (sprintf_d 999999999).length + 1 ≤ REQUEST_SIZE) ∧
    ((1000000000 : Int) ≤ 1000000000 ∧ (1000000000 : Int) ≤ INT_MAX ∧
      (sprintf_d 1000000000).length + 1 = 11 ∧
      ¬ (sprintf_d 1000000000).length + 1 ≤ REQUEST_SIZE) :=
  ⟨⟨by decide, by decide,
    ((C18_request_buffer 999999999).1 (by decide) (by decide)).1,
    ((C18_request_buffer 999999999).1 (by decide) (by decide)).2.1⟩,
   ⟨by decide, by decide,
    ((C18_request_buffer 1000000000).2.1 (by decide) (by decide)).1,
    ((C18_request_buffer 1000000000).2.1 (by decide) (by decide)).2.1⟩⟩

end BinaryStar
